import Mathlib

/-!
Verification of the PIAE translation-project backend (`src/Backend/app`).

This file gives a shallow embedding of the core lifecycle code:

* domain model (`app/domain/enums.py`, `app/domain/models.py`),
* the MongoDB repositories (`app/repositories/projects.py`,
  `app/repositories/feedback.py`, `app/repositories/translator_languages.py`),
* the services (`app/services/assignment.py`, `app/services/project_review.py`,
  `app/services/project_service.py`), and
* the API handlers that form the exposed operations (`app/api/projects.py`).

MongoDB collections are embedded as Lean lists of documents; `update_one`
is embedded as `updateFirst` (patch the first matching document, report
whether any document matched), matching Mongo's semantics of updating at
most one document.  UUIDs, timestamps and feedback ids are embedded as
natural numbers; GridFS file ids as strings.  The sequential semantics of
each HTTP request handler is embedded as a pure state-passing function on
a `Store` carrying the `projects` and `feedbacks` collections.  Email
dispatch never touches the store; it is modelled (by a `mailerOk` flag for
whether SMTP raises) exactly where a claim depends on it, namely in
`ProjectService.create_project`; for the other handlers only the
store-relevant part of the handler is embedded.
-/

namespace PIAE

/-- Project lifecycle state (`app/domain/enums.py`, `ProjectState`). -/
inductive ProjectState where
  | CREATED
  | ASSIGNED
  | COMPLETED
  | APPROVED
  | CLOSED
  deriving DecidableEq

/-- User role (`app/domain/enums.py`, `UserRole`). -/
inductive UserRole where
  | CUSTOMER
  | TRANSLATOR
  | ADMINISTRATOR
  deriving DecidableEq

/-- Application user (`app/domain/models.py`, `User`).  Only the fields the
embedded control flow inspects are kept: `id` and `role`.  The name, email
and authentication fields never influence which store writes happen. -/
structure User where
  id : Nat
  role : UserRole
  deriving DecidableEq

/-- Capability pair (`app/domain/models.py`, `TranslatorLanguage`). -/
structure TranslatorLanguage where
  translator_id : Nat
  language_code : String
  deriving DecidableEq

/-- Customer feedback document (`app/domain/models.py`, `Feedback`). -/
structure Feedback where
  id : Nat
  project_id : Nat
  text : String
  created_at : Nat
  deriving DecidableEq

/-- Translation project document (`app/domain/models.py`, `Project`). -/
structure Project where
  id : Nat
  customer_id : Nat
  translator_id : Option Nat
  language_code : String
  original_file_id : String
  translated_file_id : Option String
  state : ProjectState
  created_at : Nat
  feedback_id : Option Nat
  deriving DecidableEq

/-- The entity store: the `projects` and `feedbacks` MongoDB collections. -/
structure Store where
  projects : List Project
  feedbacks : List Feedback
  deriving DecidableEq

/-- Mongo `update_one(filter, {"$set": ...})`: patch the first document
matching the filter, leave everything else unchanged, and report in the
second component whether a document matched (`matched_count` as a Bool). -/
def updateFirst (pred : α → Bool) (patch : α → α) : List α → List α × Bool
  | [] => ([], false)
  | x :: xs =>
      if pred x then (patch x :: xs, true)
      else
        let r := updateFirst pred patch xs
        (x :: r.1, r.2)

/-- Whitespace characters stripped by Python's `str.strip()` (ASCII range,
which is what the feedback-text validation distinguishes). -/
def pyIsSpace (c : Char) : Bool :=
  c = ' ' || c = '\t' || c = '\n' || c = '\r' || c = '\x0b' || c = '\x0c'

/-- Python `str.strip()`: drop leading and trailing whitespace. -/
def pyStrip (s : String) : String :=
  String.mk (((s.data.dropWhile pyIsSpace).reverse.dropWhile pyIsSpace).reverse)

/-- Python `str.lower()`, character-wise (the inputs are two-letter ASCII
language codes). -/
def pyLower (s : String) : String := String.mk (s.data.map Char.toLower)

/-- `ProjectRepository.get_by_id` (`app/repositories/projects.py` lines 52-62):
`find_one({"id": str(project_id)})`. -/
def ProjectRepository.get_by_id (col : List Project) (project_id : Nat) : Option Project :=
  col.find? (fun p => p.id == project_id)

/-- `ProjectRepository.assign_translator` (`app/repositories/projects.py`
lines 77-88): `update_one({"id": id}, {"$set": {"translator_id": t, "state": state}})`.
The match filter is the project id alone. -/
def ProjectRepository.assign_translator (col : List Project) (project_id translator_id : Nat)
    (state : ProjectState) : List Project :=
  (updateFirst (fun p => p.id == project_id)
    (fun p => { p with translator_id := some translator_id, state := state }) col).1

/-- `ProjectRepository.close_project` (`app/repositories/projects.py`
lines 90-96): `update_one({"id": id}, {"$set": {"state": "CLOSED"}})`.
The match filter is the project id alone. -/
def ProjectRepository.close_project (col : List Project) (project_id : Nat) : List Project :=
  (updateFirst (fun p => p.id == project_id)
    (fun p => { p with state := ProjectState.CLOSED }) col).1

/-- `ProjectRepository.count_active_by_translator_ids`
(`app/repositories/projects.py` lines 115-138) as the per-translator count:
the Python code returns a dict keyed by the queried translator ids, where a
translator with no non-CLOSED project counts as 0; the aggregation counts
documents with `translator_id` in the queried ids and `state != "CLOSED"`.
The dict lookup `counts.get(str(tid), 0)` therefore yields, for each queried
id, exactly the value below. -/
def ProjectRepository.count_active_by_translator_ids (col : List Project)
    (translator_id : Nat) : Nat :=
  (col.filter (fun p =>
    p.translator_id == some translator_id && !(decide (p.state = ProjectState.CLOSED)))).length

/-- `ProjectRepository.submit_translation` (`app/repositories/projects.py`
lines 140-155): `update_one({"id": id, "translator_id": t}, {"$set":
{"translated_file_id": f, "state": "COMPLETED"}})`; returns `matched_count`
as a Bool.  The match filter is the project id and the translator id; it
does not mention `state`. -/
def ProjectRepository.submit_translation (col : List Project) (project_id translator_id : Nat)
    (translated_file_id : String) : List Project × Bool :=
  updateFirst (fun p => p.id == project_id && p.translator_id == some translator_id)
    (fun p => { p with translated_file_id := some translated_file_id,
                       state := ProjectState.COMPLETED }) col

/-- `ProjectRepository.set_feedback_and_state_if_customer`
(`app/repositories/projects.py` lines 182-207): `update_one({"id": id,
"customer_id": c, "state": expected_state}, {"$set": {"state": new_state,
"feedback_id": fid}})`; returns `matched_count` as a Bool. -/
def ProjectRepository.set_feedback_and_state_if_customer (col : List Project)
    (project_id customer_id : Nat) (expected_state new_state : ProjectState)
    (feedback_id : Nat) : List Project × Bool :=
  updateFirst
    (fun p => p.id == project_id && p.customer_id == customer_id &&
      decide (p.state = expected_state))
    (fun p => { p with state := new_state, feedback_id := some feedback_id })
    col

/-- `FeedbackRepository.get_by_project_id` (`app/repositories/feedback.py`
lines 41-51): `find_one({"project_id": str(project_id)})`. -/
def FeedbackRepository.get_by_project_id (col : List Feedback) (project_id : Nat) :
    Option Feedback :=
  col.find? (fun f => f.project_id == project_id)

/-- `FeedbackRepository.upsert_for_project` (`app/repositories/feedback.py`
lines 53-77): look up an existing feedback for the project; if present, keep
its id; then `update_one({"project_id": pid}, {"$set": <all fields>}, upsert=True)`,
which overwrites the first matching document or inserts a new one when none
matches.  Returns the stored feedback. -/
def FeedbackRepository.upsert_for_project (col : List Feedback) (feedback : Feedback) :
    List Feedback × Feedback :=
  let fb : Feedback :=
    match FeedbackRepository.get_by_project_id col feedback.project_id with
    | some existing => { feedback with id := existing.id }
    | none => feedback
  let r := updateFirst (fun f => f.project_id == feedback.project_id) (fun _ => fb) col
  if r.2 then (r.1, fb) else (col ++ [fb], fb)

/-- `TranslatorLanguageRepository.list_translator_ids_for_language`
(`app/repositories/translator_languages.py` lines 34-45):
`find({"language_code": lc})` projected to the translator ids, in
collection order. -/
def TranslatorLanguageRepository.list_translator_ids_for_language
    (caps : List TranslatorLanguage) (language_code : String) : List Nat :=
  (caps.filter (fun c => c.language_code == language_code)).map TranslatorLanguage.translator_id

/-- The selection loop of `ProjectAssignmentService.find_best_translator_id`
(`app/services/assignment.py` lines 53-61): fold over the candidate list
keeping `(best, best_count)`, replacing the current best only on a strictly
smaller count (so on ties the earlier candidate is kept). -/
def find_best_loop (counts : Nat → Nat) : Option (Nat × Nat) → List Nat → Option (Nat × Nat)
  | acc, [] => acc
  | acc, tid :: rest =>
      let c := counts tid
      match acc with
      | none => find_best_loop counts (some (tid, c)) rest
      | some (b, bc) =>
          if c < bc then find_best_loop counts (some (tid, c)) rest
          else find_best_loop counts (some (b, bc)) rest

/-- `ProjectAssignmentService.find_best_translator_id`
(`app/services/assignment.py` lines 36-61), abstracted over the
active-count mapping (the Python code reads the dict returned by
`count_active_by_translator_ids`, with `.get(str(tid), 0)` defaulting
absent candidates to 0; `counts` is that total lookup function): return
None on an empty candidate list, otherwise run the selection loop. -/
def find_best_from_counts (counts : Nat → Nat) (translator_ids : List Nat) : Option Nat :=
  if translator_ids.isEmpty then none
  else (find_best_loop counts none translator_ids).map Prod.fst

/-- `ProjectAssignmentService.find_best_translator_id` with its two
repository reads inlined (capability listing order, live active counts). -/
def ProjectAssignmentService.find_best_translator_id (col : List Project)
    (caps : List TranslatorLanguage) (language_code : String) : Option Nat :=
  find_best_from_counts (ProjectRepository.count_active_by_translator_ids col)
    (TranslatorLanguageRepository.list_translator_ids_for_language caps language_code)

/-- `ProjectAssignmentService.assign_or_close` (`app/services/assignment.py`
lines 63-92): pick the best translator; if none, close the project,
otherwise assign the translator and set state ASSIGNED. -/
def ProjectAssignmentService.assign_or_close (col : List Project)
    (caps : List TranslatorLanguage) (project_id : Nat) (language_code : String) :
    List Project × Option Nat :=
  match ProjectAssignmentService.find_best_translator_id col caps language_code with
  | none => (ProjectRepository.close_project col project_id, none)
  | some t => (ProjectRepository.assign_translator col project_id t ProjectState.ASSIGNED, some t)

/-- Result of a review action (`app/services/project_review.py`, `ReviewResult`). -/
structure ReviewResult where
  new_state : ProjectState
  deriving DecidableEq

/-- `ProjectReviewService.approve` (`app/services/project_review.py`
lines 46-74): build a feedback document (fresh uuid modelled by `fb_id`,
`utc_now()` by `now`), upsert it FIRST, then attempt the conditional state
transition COMPLETED -> APPROVED matched on (id, customer_id, state);
return None ("Denied") when the conditional match fails.  Note that the
feedback upsert has already happened in that case. -/
def ProjectReviewService.approve (s : Store) (project_id customer_id : Nat) (text : String)
    (fb_id now : Nat) : Store × Option ReviewResult :=
  let fb0 : Feedback := { id := fb_id, project_id := project_id, text := text, created_at := now }
  let fr := FeedbackRepository.upsert_for_project s.feedbacks fb0
  let pr := ProjectRepository.set_feedback_and_state_if_customer s.projects project_id
    customer_id ProjectState.COMPLETED ProjectState.APPROVED fr.2.id
  ({ projects := pr.1, feedbacks := fr.1 },
   if pr.2 then some { new_state := ProjectState.APPROVED } else none)

/-- `ProjectReviewService.reject` (`app/services/project_review.py`
lines 76-107): return None immediately when the text is blank after
stripping (`if not (text or "").strip()`), before touching the store;
otherwise identical to `approve` with target state ASSIGNED. -/
def ProjectReviewService.reject (s : Store) (project_id customer_id : Nat) (text : String)
    (fb_id now : Nat) : Store × Option ReviewResult :=
  if pyStrip text = "" then (s, none)
  else
    let fb0 : Feedback := { id := fb_id, project_id := project_id, text := text, created_at := now }
    let fr := FeedbackRepository.upsert_for_project s.feedbacks fb0
    let pr := ProjectRepository.set_feedback_and_state_if_customer s.projects project_id
      customer_id ProjectState.COMPLETED ProjectState.ASSIGNED fr.2.id
    ({ projects := pr.1, feedbacks := fr.1 },
     if pr.2 then some { new_state := ProjectState.ASSIGNED } else none)

/-- Error outcomes of the embedded handlers, mirroring the HTTPException
status codes raised by the Python code plus the uncaught SMTP exception. -/
inductive ApiErr where
  | forbidden
  | notFound
  | conflict
  | payloadTooLarge
  | smtpError
  | internalError
  deriving DecidableEq

/-- Decidable equality for handler outcomes, used to evaluate the embedded
operations on concrete inputs. -/
instance {ε α : Type} [DecidableEq ε] [DecidableEq α] : DecidableEq (Except ε α) := fun a b =>
  match a, b with
  | Except.ok x, Except.ok y =>
      if h : x = y then isTrue (by rw [h]) else isFalse (fun hc => h (by cases hc; rfl))
  | Except.ok _, Except.error _ => isFalse (fun hc => Except.noConfusion hc)
  | Except.error _, Except.ok _ => isFalse (fun hc => Except.noConfusion hc)
  | Except.error e, Except.error f =>
      if h : e = f then isTrue (by rw [h]) else isFalse (fun hc => h (by cases hc; rfl))

/-- Result of `ProjectService.create_project`
(`app/services/project_service.py`, `CreateProjectResult`). -/
structure CreateProjectResult where
  project : Project
  assigned_translator_id : Option Nat
  deriving DecidableEq

/-- The freshly constructed project of `ProjectService.create_project`
(`app/services/project_service.py` lines 116-122): state CREATED, no
translator, lowercased language code. -/
def mkCreatedProject (customer : User) (language_code : String) (new_pid : Nat)
    (file_id : String) (now : Nat) : Project :=
  { id := new_pid, customer_id := customer.id, translator_id := none,
    language_code := pyLower language_code, original_file_id := file_id,
    translated_file_id := none, state := ProjectState.CREATED, created_at := now,
    feedback_id := none }

/-- The tail of `ProjectService.create_project`
(`app/services/project_service.py` lines 167-169): re-read the stored
project and return it; the Python `assert stored is not None` is modelled
as an `internalError` outcome. -/
def create_project_finish (s : Store) (new_pid : Nat) (tid : Option Nat) :
    Store × Except ApiErr CreateProjectResult :=
  match ProjectRepository.get_by_id s.projects new_pid with
  | some stored => (s, Except.ok { project := stored, assigned_translator_id := tid })
  | none => (s, Except.error ApiErr.internalError)

/-- `ProjectService.create_project` (`app/services/project_service.py`
lines 79-169): role check, size check, blob upload (modelled by the given
`file_id`), insert the CREATED project, run `assign_or_close`, then notify
the assigned translator (or, when closed unassigned, the customer) when
that user exists.  `EmailService.send` (`app/services/emailer.py` lines
27-47) opens an SMTP connection with no try/except anywhere on the call
path, so a failing mailer (`mailerOk = false`) raises out of the service;
the store writes already performed are kept.  Fresh `uuid4()` is modelled
by `new_pid`, `utc_now()` by `now`. -/
def ProjectService.create_project (s : Store) (caps : List TranslatorLanguage)
    (users : List User) (customer : User) (language_code : String)
    (content_len max_bytes : Nat) (new_pid : Nat) (file_id : String) (now : Nat)
    (mailerOk : Bool) : Store × Except ApiErr CreateProjectResult :=
  if customer.role ≠ UserRole.CUSTOMER then (s, Except.error ApiErr.forbidden)
  else if content_len > max_bytes then (s, Except.error ApiErr.payloadTooLarge)
  else
    let project := mkCreatedProject customer language_code new_pid file_id now
    let s1 : Store := { s with projects := s.projects ++ [project] }
    let ac := ProjectAssignmentService.assign_or_close s1.projects caps new_pid
      project.language_code
    let s2 : Store := { s1 with projects := ac.1 }
    match ac.2 with
    | some t =>
        match users.find? (fun u => u.id == t) with
        | some _ =>
            if mailerOk then create_project_finish s2 new_pid (some t)
            else (s2, Except.error ApiErr.smtpError)
        | none => create_project_finish s2 new_pid (some t)
    | none =>
        match users.find? (fun u => u.id == customer.id) with
        | some _ =>
            if mailerOk then create_project_finish s2 new_pid none
            else (s2, Except.error ApiErr.smtpError)
        | none => create_project_finish s2 new_pid none

/-- The `submit_translation` handler (`app/api/projects.py` lines 295-364),
up to and including the state-mutating write: role check, project fetch,
translator-ownership check, state-precondition check (`state` must be
ASSIGNED or COMPLETED, else 409), size check, blob upload (modelled by
`translated_file_id`), then `ProjectRepository.submit_translation`; a
failed conditional update surfaces as 409.  The customer notification after
the commit never touches the store and is not modelled here. -/
def submitTranslationApi (s : Store) (caller : User) (project_id : Nat)
    (content_len max_bytes : Nat) (translated_file_id : String) :
    Store × Except ApiErr Unit :=
  if caller.role ≠ UserRole.TRANSLATOR then (s, Except.error ApiErr.forbidden)
  else
    match ProjectRepository.get_by_id s.projects project_id with
    | none => (s, Except.error ApiErr.notFound)
    | some project =>
        if project.translator_id ≠ some caller.id then (s, Except.error ApiErr.forbidden)
        else if ¬(project.state = ProjectState.ASSIGNED ∨
                  project.state = ProjectState.COMPLETED) then
          (s, Except.error ApiErr.conflict)
        else if content_len > max_bytes then (s, Except.error ApiErr.payloadTooLarge)
        else
          let r := ProjectRepository.submit_translation s.projects project_id caller.id
            translated_file_id
          if r.2 then ({ s with projects := r.1 }, Except.ok ())
          else ({ s with projects := r.1 }, Except.error ApiErr.conflict)

/-- The `admin_close_project` handler (`app/api/projects.py` lines 647-689),
up to and including the state-mutating write: admin role check, project
fetch (404 when absent), then `ProjectRepository.close_project` — an
unconditional transition to CLOSED.  The notifications after the write
never touch the store and are not modelled here. -/
def adminCloseProjectApi (s : Store) (caller : User) (project_id : Nat) :
    Store × Except ApiErr Unit :=
  if caller.role ≠ UserRole.ADMINISTRATOR then (s, Except.error ApiErr.forbidden)
  else
    match ProjectRepository.get_by_id s.projects project_id with
    | none => (s, Except.error ApiErr.notFound)
    | some _ =>
        ({ s with projects := ProjectRepository.close_project s.projects project_id },
         Except.ok ())

/-- Whether an embedded handler outcome is a success. -/
def isOkUnit : Except ApiErr Unit → Bool
  | Except.ok _ => true
  | Except.error _ => false

/-- One core operation, as exposed by the API layer, acting on the store.
The second and fourth arguments are a ghost history flag per project id,
recording whether a translation submission has ever succeeded for that
project; only the `submitTranslation` step sets it.  The freshness
hypothesis on `createProject` models `uuid4()` together with the unique
index on `projects.id`. -/
inductive Step : Store → (Nat → Bool) → Store → (Nat → Bool) → Prop where
  | createProject (s : Store) (sub : Nat → Bool) (caps : List TranslatorLanguage)
      (users : List User) (customer : User) (language_code : String)
      (content_len max_bytes new_pid : Nat) (file_id : String) (now : Nat) (mailerOk : Bool)
      (hfresh : ∀ p ∈ s.projects, p.id ≠ new_pid) :
      Step s sub
        (ProjectService.create_project s caps users customer language_code content_len
          max_bytes new_pid file_id now mailerOk).1 sub
  | submitTranslation (s : Store) (sub : Nat → Bool) (caller : User)
      (project_id content_len max_bytes : Nat) (translated_file_id : String) :
      Step s sub
        (submitTranslationApi s caller project_id content_len max_bytes translated_file_id).1
        (fun i =>
          if i == project_id &&
             isOkUnit (submitTranslationApi s caller project_id content_len max_bytes
               translated_file_id).2 then true
          else sub i)
  | approve (s : Store) (sub : Nat → Bool) (project_id customer_id : Nat) (text : String)
      (fb_id now : Nat) :
      Step s sub (ProjectReviewService.approve s project_id customer_id text fb_id now).1 sub
  | reject (s : Store) (sub : Nat → Bool) (project_id customer_id : Nat) (text : String)
      (fb_id now : Nat) :
      Step s sub (ProjectReviewService.reject s project_id customer_id text fb_id now).1 sub
  | closeProject (s : Store) (sub : Nat → Bool) (caller : User) (project_id : Nat) :
      Step s sub (adminCloseProjectApi s caller project_id).1 sub

/-- Stores (with their ghost submission history) reachable from the empty
store by any sequence of core operations. -/
inductive Reach : Store → (Nat → Bool) → Prop where
  | init : Reach { projects := [], feedbacks := [] } (fun _ => false)
  | step {s : Store} {sub : Nat → Bool} {s' : Store} {sub' : Nat → Bool} :
      Reach s sub → Step s sub s' sub' → Reach s' sub'

/-- Proof helper: the selection loop of `find_best_loop` once the
accumulator holds a definite current best.  `selGo counts b l` is the
candidate selected from `b :: l` when `b` is the current best. -/
def selGo (counts : Nat → Nat) (best : Nat) : List Nat → Nat
  | [] => best
  | t :: rest =>
      if counts t < counts best then selGo counts t rest else selGo counts best rest

/-- Whether `ProjectService.create_project` reaches an `EmailService.send`
call: validation passed and the notification recipient (the assigned
translator, or the customer when the project was closed unassigned) exists
in the users collection.  Mirrors the branch structure of
`ProjectService.create_project`. -/
def create_sendAttempted (s : Store) (caps : List TranslatorLanguage) (users : List User)
    (customer : User) (language_code : String) (content_len max_bytes : Nat)
    (new_pid : Nat) (file_id : String) (now : Nat) : Bool :=
  if customer.role ≠ UserRole.CUSTOMER then false
  else if content_len > max_bytes then false
  else
    let project := mkCreatedProject customer language_code new_pid file_id now
    let ac := ProjectAssignmentService.assign_or_close (s.projects ++ [project]) caps new_pid
      project.language_code
    match ac.2 with
    | some t => (users.find? (fun u => u.id == t)).isSome
    | none => (users.find? (fun u => u.id == customer.id)).isSome

/-- Per-project invariant tying `translated_file_id` to the lifecycle state
and the ghost submission flag. -/
def ProjInv (sub : Nat → Bool) (p : Project) : Prop :=
  (p.translated_file_id.isSome = true ↔ sub p.id = true) ∧
  ((p.state = ProjectState.COMPLETED ∨ p.state = ProjectState.APPROVED) → sub p.id = true) ∧
  p.state ≠ ProjectState.CREATED

/-- Store invariant: project ids are unique (the `projects.id` unique
index), the ghost flag is only set for existing projects, and every
project satisfies `ProjInv`. -/
def StoreInv (s : Store) (sub : Nat → Bool) : Prop :=
  (s.projects.map Project.id).Nodup ∧
  (∀ i, sub i = true → i ∈ s.projects.map Project.id) ∧
  (∀ p ∈ s.projects, ProjInv sub p)

/-- Concrete fixture: a COMPLETED project owned by customer 10, assigned to
translator 2, with a submitted translation; used by witnesses. -/
def wProjCompleted : Project :=
  { id := 1, customer_id := 10, translator_id := some 2, language_code := "cs",
    original_file_id := "o", translated_file_id := some "t",
    state := ProjectState.COMPLETED, created_at := 0, feedback_id := none }

/-- Concrete fixture: a CLOSED project; used by witnesses and counterexamples. -/
def wProjClosed : Project :=
  { id := 1, customer_id := 10, translator_id := some 2, language_code := "cs",
    original_file_id := "o", translated_file_id := none,
    state := ProjectState.CLOSED, created_at := 0, feedback_id := none }

/-- Concrete fixture: a store holding only `wProjCompleted`. -/
def wStoreCompleted : Store := { projects := [wProjCompleted], feedbacks := [] }

/-- Concrete fixture: a store holding only `wProjClosed`. -/
def wStoreClosed : Store := { projects := [wProjClosed], feedbacks := [] }

/-- Concrete fixture: `wProjCompleted` after a successful approve with
feedback id 7. -/
def wProjApproved : Project :=
  { id := 1, customer_id := 10, translator_id := some 2, language_code := "cs",
    original_file_id := "o", translated_file_id := some "t",
    state := ProjectState.APPROVED, created_at := 0, feedback_id := some 7 }

/-- Concrete fixture: the feedback row written by that approve. -/
def wFbOk : Feedback := { id := 7, project_id := 1, text := "ok", created_at := 9 }

/-- Concrete fixture: one translator capability for language "cs". -/
def wCaps : List TranslatorLanguage := [{ translator_id := 2, language_code := "cs" }]

/-- Concrete fixture: the translator user. -/
def wTranslator : User := { id := 2, role := UserRole.TRANSLATOR }

/-- Concrete fixture: the customer user. -/
def wCustomer : User := { id := 10, role := UserRole.CUSTOMER }

/-- Concrete fixture: the administrator user. -/
def wAdmin : User := { id := 99, role := UserRole.ADMINISTRATOR }

/-- Concrete fixture: the users collection. -/
def wUsers : List User := [wTranslator, wCustomer, wAdmin]

/-- Concrete fixture: the project as persisted right after a successful
`create_project` with `wCaps` (assigned to translator 2). -/
def wProjAssigned : Project :=
  { id := 1, customer_id := 10, translator_id := some 2, language_code := "cs",
    original_file_id := "o", translated_file_id := none,
    state := ProjectState.ASSIGNED, created_at := 0, feedback_id := none }

/-- Concrete fixture: the store after that `create_project`. -/
def wStoreAssigned : Store := { projects := [wProjAssigned], feedbacks := [] }

/-- Concrete fixture: `wProjCompleted` closed by the administrator while its
translated file reference is still set. -/
def wProjClosedFile : Project := { wProjCompleted with state := ProjectState.CLOSED }

/-- Concrete fixture: the store after admin close of `wStoreCompleted`. -/
def wStoreClosedFile : Store := { projects := [wProjClosedFile], feedbacks := [] }

/-- Concrete fixture: the ghost submission-history flag after project 1 has
had a successful translation submission. -/
def wSubAfter : Nat → Bool := fun i => i == 1

/-! ### Helper lemmas about the store primitives -/

theorem updateFirst_of_all_false {α} {pred : α → Bool} {patch : α → α} {l : List α}
    (h : ∀ x ∈ l, pred x = false) : updateFirst pred patch l = (l, false) := by
  induction l with
  | nil => rfl
  | cons x xs ih =>
      have hx : pred x = false := h x (List.mem_cons_self x xs)
      have hxs := ih (fun z hz => h z (List.mem_cons_of_mem x hz))
      simp [updateFirst, hx, hxs]

theorem updateFirst_append_match {α} {pred : α → Bool} {patch : α → α} {l1 l2 : List α} {x : α}
    (h1 : ∀ z ∈ l1, pred z = false) (hx : pred x = true) :
    updateFirst pred patch (l1 ++ x :: l2) = (l1 ++ patch x :: l2, true) := by
  induction l1 with
  | nil => simp [updateFirst, hx]
  | cons a as ih =>
      have ha : pred a = false := h1 a (List.mem_cons_self a as)
      have has := ih (fun z hz => h1 z (List.mem_cons_of_mem a hz))
      simp [updateFirst, ha, has]

theorem updateFirst_decomp {α} {pred : α → Bool} {patch : α → α} {l : List α}
    (h : (updateFirst pred patch l).2 = true) :
    ∃ l1 x l2, l = l1 ++ x :: l2 ∧ (∀ z ∈ l1, pred z = false) ∧ pred x = true ∧
      (updateFirst pred patch l).1 = l1 ++ patch x :: l2 := by
  induction l with
  | nil => simp [updateFirst] at h
  | cons a as ih =>
      by_cases hp : pred a = true
      · exact ⟨[], a, as, rfl, by simp, hp, by simp [updateFirst, hp]⟩
      · have hp' : pred a = false := by
          cases hpa : pred a with
          | true => exact absurd hpa hp
          | false => rfl
        have h' : (updateFirst pred patch as).2 = true := by
          simpa [updateFirst, hp'] using h
        obtain ⟨l1, x, l2, e, hl1, hx, hres⟩ := ih h'
        refine ⟨a :: l1, x, l2, by simp [e], ?_, hx, by simp [updateFirst, hp', hres]⟩
        intro z hz
        rcases List.mem_cons.mp hz with hz | hz
        · exact hz ▸ hp'
        · exact hl1 z hz

theorem updateFirst_snd_iff {α} {pred : α → Bool} {patch : α → α} {l : List α} :
    (updateFirst pred patch l).2 = true ↔ ∃ x ∈ l, pred x = true := by
  induction l with
  | nil => simp [updateFirst]
  | cons a as ih =>
      cases hp : pred a with
      | true =>
          constructor
          · intro _
            exact ⟨a, List.mem_cons_self a as, hp⟩
          · intro _
            simp [updateFirst, hp]
      | false =>
          constructor
          · intro h
            have h' : (updateFirst pred patch as).2 = true := by
              simpa [updateFirst, hp] using h
            obtain ⟨x, hx, hpx⟩ := ih.mp h'
            exact ⟨x, List.mem_cons_of_mem a hx, hpx⟩
          · intro hex
            obtain ⟨x, hx, hpx⟩ := hex
            rcases List.mem_cons.mp hx with hxa | hx'
            · rw [hxa, hp] at hpx
              exact absurd hpx (by simp)
            · have h' := ih.mpr ⟨x, hx', hpx⟩
              simpa [updateFirst, hp] using h'

theorem updateFirst_fst_of_all_false {α} {pred : α → Bool} {patch : α → α} {l : List α}
    (h : ∀ x ∈ l, pred x = false) : (updateFirst pred patch l).1 = l := by
  rw [updateFirst_of_all_false h]

theorem updateFirst_map_eq {α β} {pred : α → Bool} {patch : α → α} {g : α → β}
    (hg : ∀ x, g (patch x) = g x) (l : List α) :
    ((updateFirst pred patch l).1).map g = l.map g := by
  induction l with
  | nil => rfl
  | cons a as ih =>
      cases hp : pred a with
      | true => simp [updateFirst, hp, hg a]
      | false => simp [updateFirst, hp, ih]

theorem updateFirst_mem {α} {pred : α → Bool} {patch : α → α} {l : List α} {y : α}
    (hy : y ∈ (updateFirst pred patch l).1) :
    y ∈ l ∨ ∃ x ∈ l, pred x = true ∧ y = patch x := by
  induction l with
  | nil => simp [updateFirst] at hy
  | cons a as ih =>
      cases hp : pred a with
      | true =>
          rw [show updateFirst pred patch (a :: as) = (patch a :: as, true) by
            simp [updateFirst, hp]] at hy
          rcases List.mem_cons.mp hy with hya | hyas
          · exact Or.inr ⟨a, List.mem_cons_self a as, hp, hya⟩
          · exact Or.inl (List.mem_cons_of_mem a hyas)
      | false =>
          have hy' : y ∈ a :: (updateFirst pred patch as).1 := by
            simpa [updateFirst, hp] using hy
          rcases List.mem_cons.mp hy' with hya | hyas
          · exact Or.inl (hya ▸ List.mem_cons_self a as)
          · rcases ih hyas with h | ⟨x, hx, hpx, hyx⟩
            · exact Or.inl (List.mem_cons_of_mem a h)
            · exact Or.inr ⟨x, List.mem_cons_of_mem a hx, hpx, hyx⟩

theorem nodup_map_decomp_ne {α β} {g : α → β} {l1 l2 : List α} {x : α}
    (h : ((l1 ++ x :: l2).map g).Nodup) :
    ∀ y, y ∈ l1 ∨ y ∈ l2 → g y ≠ g x := by
  rw [List.map_append, List.map_cons, List.nodup_append] at h
  obtain ⟨_, hcons, hdisj⟩ := h
  intro y hy
  rcases hy with hy | hy
  · intro he
    exact hdisj (List.mem_map_of_mem g hy) (he ▸ List.mem_cons_self (g x) (l2.map g))
  · intro he
    have hx_notin : g x ∉ l2.map g := (List.nodup_cons.mp hcons).1
    exact hx_notin (he ▸ List.mem_map_of_mem g hy)

theorem find?_decomp {α} {pred : α → Bool} {l : List α} {a : α}
    (h : l.find? pred = some a) :
    ∃ l1 l2, l = l1 ++ a :: l2 ∧ (∀ z ∈ l1, pred z = false) ∧ pred a = true := by
  induction l with
  | nil => simp at h
  | cons b bs ih =>
      by_cases hp : pred b = true
      · rw [List.find?_cons_of_pos _ hp] at h
        cases h
        exact ⟨[], bs, rfl, by simp, hp⟩
      · have hp' : pred b = false := by
          cases hpb : pred b with
          | true => exact absurd hpb hp
          | false => rfl
        rw [List.find?_cons_of_neg _ (by simp [hp'])] at h
        obtain ⟨l1, l2, e, hl1, ha⟩ := ih h
        refine ⟨b :: l1, l2, by simp [e], ?_, ha⟩
        intro z hz
        rcases List.mem_cons.mp hz with hz | hz
        · exact hz ▸ hp'
        · exact hl1 z hz

theorem find?_append_match {α} {pred : α → Bool} {l1 l2 : List α} {x : α}
    (h1 : ∀ z ∈ l1, pred z = false) (hx : pred x = true) :
    (l1 ++ x :: l2).find? pred = some x := by
  induction l1 with
  | nil => simp [List.find?_cons_of_pos _ hx]
  | cons a as ih =>
      have ha : pred a = false := h1 a (List.mem_cons_self a as)
      rw [List.cons_append, List.find?_cons_of_neg _ (by simp [ha])]
      exact ih (fun z hz => h1 z (List.mem_cons_of_mem a hz))

theorem updateFirst_const_mem {α} {pred : α → Bool} {c : α} {l : List α}
    (h : (updateFirst pred (fun _ => c) l).2 = true) :
    c ∈ (updateFirst pred (fun _ => c) l).1 := by
  obtain ⟨l1, x, l2, _, _, _, hres⟩ := updateFirst_decomp h
  rw [hres]
  exact List.mem_append_right l1 (List.mem_cons_self c l2)

theorem upsert_for_project_spec (col : List Feedback) (feedback : Feedback) :
    (FeedbackRepository.upsert_for_project col feedback).2 ∈
      (FeedbackRepository.upsert_for_project col feedback).1 ∧
    (FeedbackRepository.upsert_for_project col feedback).2.project_id = feedback.project_id ∧
    (FeedbackRepository.upsert_for_project col feedback).2.text = feedback.text := by
  unfold FeedbackRepository.upsert_for_project
  cases hfind : FeedbackRepository.get_by_project_id col feedback.project_id with
  | some existing =>
      simp only [hfind]
      cases hflag : (updateFirst (fun f => f.project_id == feedback.project_id)
          (fun _ => { feedback with id := existing.id }) col).2 with
      | true =>
          simp only [hflag, if_true]
          exact ⟨updateFirst_const_mem hflag, by trivial, by trivial⟩
      | false =>
          simp only [hflag, Bool.false_eq_true, if_false]
          exact ⟨List.mem_append_right col (List.mem_cons_self _ []), by trivial, by trivial⟩
  | none =>
      simp only [hfind]
      cases hflag : (updateFirst (fun f => f.project_id == feedback.project_id)
          (fun _ => feedback) col).2 with
      | true =>
          simp only [hflag, if_true]
          exact ⟨updateFirst_const_mem hflag, by trivial, by trivial⟩
      | false =>
          simp only [hflag, Bool.false_eq_true, if_false]
          exact ⟨List.mem_append_right col (List.mem_cons_self _ []), by trivial, by trivial⟩

/-! ### C2 — match predicates of the four state-mutating writes -/

/-- C2 (counterexample): the claim says every state-mutating write's match
predicate includes at least the project's expected prior state, so the
write applies only when the persisted state equals the expected prior
state.  This is false for the translation-submission write and for the
assignment write: on a project persisted in state CLOSED (not a legal
prior state for either write), `submit_translation` matches (its filter is
only id + translator id) and moves the project to COMPLETED, and
`assign_translator` matches (its filter is only the id) and moves it to
ASSIGNED. -/
theorem c2_counterexample :
    (ProjectRepository.submit_translation
        [{ id := 1, customer_id := 10, translator_id := some 2, language_code := "cs",
           original_file_id := "o", translated_file_id := none,
           state := ProjectState.CLOSED, created_at := 0, feedback_id := none }] 1 2 "t").2
      = true ∧
    (ProjectRepository.submit_translation
        [{ id := 1, customer_id := 10, translator_id := some 2, language_code := "cs",
           original_file_id := "o", translated_file_id := none,
           state := ProjectState.CLOSED, created_at := 0, feedback_id := none }] 1 2 "t").1
      = [{ id := 1, customer_id := 10, translator_id := some 2, language_code := "cs",
           original_file_id := "o", translated_file_id := some "t",
           state := ProjectState.COMPLETED, created_at := 0, feedback_id := none }] ∧
    ProjectRepository.assign_translator
        [{ id := 1, customer_id := 10, translator_id := some 2, language_code := "cs",
           original_file_id := "o", translated_file_id := none,
           state := ProjectState.CLOSED, created_at := 0, feedback_id := none }] 1 5
        ProjectState.ASSIGNED
      = [{ id := 1, customer_id := 10, translator_id := some 5, language_code := "cs",
           original_file_id := "o", translated_file_id := none,
           state := ProjectState.ASSIGNED, created_at := 0, feedback_id := none }] := by
  refine ⟨?_, ?_, ?_⟩ <;> decide

/-- C2 (amended): only the review-transition write's match predicate
includes the expected prior state (together with the owning customer id).
The assignment and close writes match on the project id alone, and the
translation-submission write matches on the project id and translator id;
none of those three constrains the persisted state. -/
theorem c2_match_predicates (col : List Project) (project_id customer_id translator_id : Nat)
    (fb_id : Nat) (st expected_state new_state : ProjectState) (fid : String) :
    (ProjectRepository.assign_translator col project_id translator_id st
       = (updateFirst (fun p => p.id == project_id)
           (fun p => { p with translator_id := some translator_id, state := st }) col).1 ∧
     ((updateFirst (fun p => p.id == project_id)
           (fun p => { p with translator_id := some translator_id, state := st }) col).2 = true
       ↔ ∃ p ∈ col, p.id = project_id)) ∧
    (ProjectRepository.close_project col project_id
       = (updateFirst (fun p => p.id == project_id)
           (fun p => { p with state := ProjectState.CLOSED }) col).1 ∧
     ((updateFirst (fun p => p.id == project_id)
           (fun p => { p with state := ProjectState.CLOSED }) col).2 = true
       ↔ ∃ p ∈ col, p.id = project_id)) ∧
    ((ProjectRepository.submit_translation col project_id translator_id fid).2 = true
       ↔ ∃ p ∈ col, p.id = project_id ∧ p.translator_id = some translator_id) ∧
    ((ProjectRepository.set_feedback_and_state_if_customer col project_id customer_id
        expected_state new_state fb_id).2 = true
       ↔ ∃ p ∈ col, p.id = project_id ∧ p.customer_id = customer_id ∧
           p.state = expected_state) := by
  refine ⟨⟨rfl, ?_⟩, ⟨rfl, ?_⟩, ?_, ?_⟩
  · simp [updateFirst_snd_iff]
  · simp [updateFirst_snd_iff]
  · simp [ProjectRepository.submit_translation, updateFirst_snd_iff]
  · simp [ProjectRepository.set_feedback_and_state_if_customer, updateFirst_snd_iff,
      and_assoc]

/-! ### C7 — approve guard and frame -/

/-- C7: `approve` succeeds exactly when the store holds a project with the
given id whose owner is the calling customer and whose state is COMPLETED;
in every other case it returns None ("Denied") and the projects collection
— in particular each project's `state`, `translator_id` and
`translated_file_id` — is left exactly as it was. -/
theorem c7_approve_guard_and_frame (s : Store) (project_id customer_id : Nat) (text : String)
    (fb_id now : Nat) :
    ((¬ ∃ p ∈ s.projects, p.id = project_id ∧ p.customer_id = customer_id ∧
        p.state = ProjectState.COMPLETED) →
      (ProjectReviewService.approve s project_id customer_id text fb_id now).2 = none ∧
      (ProjectReviewService.approve s project_id customer_id text fb_id now).1.projects
        = s.projects) ∧
    ((ProjectReviewService.approve s project_id customer_id text fb_id now).2.isSome = true ↔
      ∃ p ∈ s.projects, p.id = project_id ∧ p.customer_id = customer_id ∧
        p.state = ProjectState.COMPLETED) := by
  constructor
  · intro hno
    have hfalse : ∀ p ∈ s.projects,
        (p.id == project_id && p.customer_id == customer_id &&
          decide (p.state = ProjectState.COMPLETED)) = false := by
      intro p hp
      cases hb : (p.id == project_id && p.customer_id == customer_id &&
          decide (p.state = ProjectState.COMPLETED)) with
      | false => rfl
      | true =>
          exfalso
          apply hno
          refine ⟨p, hp, ?_⟩
          simpa [and_assoc] using hb
    simp only [ProjectReviewService.approve,
      ProjectRepository.set_feedback_and_state_if_customer]
    simp only [updateFirst_of_all_false hfalse]
    simp
  · have hiso : ∀ (b : Bool) (v : ReviewResult),
        (Option.isSome (if b then some v else none)) = b := by
      intro b v
      cases b <;> simp
    simp only [ProjectReviewService.approve]
    rw [hiso]
    simp only [ProjectRepository.set_feedback_and_state_if_customer]
    rw [updateFirst_snd_iff]
    simp [and_assoc]

/-- Witness for C7 at a concrete store: a COMPLETED project owned by
customer 10 and a call by the wrong customer 11, which is denied with the
projects collection unchanged. -/
theorem c7_approve_guard_and_frame_witness :
    (¬ ∃ p ∈ wStoreCompleted.projects,
        p.id = 1 ∧ p.customer_id = 11 ∧ p.state = ProjectState.COMPLETED) ∧
    (ProjectReviewService.approve wStoreCompleted 1 11 "fine" 7 9).2 = none :=
  ⟨by decide,
   ((c7_approve_guard_and_frame wStoreCompleted 1 11 "fine" 7 9).1 (by decide)).1⟩

/-! ### C8 — blank rejection text fails before any store mutation -/

/-- C8: a `reject` whose text is empty or whitespace-only after stripping
returns None before touching the store: the whole store (projects and
feedbacks) is returned unchanged, for every input state. -/
theorem c8_reject_blank_text_no_mutation (s : Store) (project_id customer_id : Nat)
    (text : String) (fb_id now : Nat) (h : pyStrip text = "") :
    ProjectReviewService.reject s project_id customer_id text fb_id now = (s, none) := by
  simp [ProjectReviewService.reject, h]

/-- Witness for C8: whitespace-only text on a COMPLETED project owned by
the caller — still denied, store untouched. -/
theorem c8_reject_blank_text_no_mutation_witness :
    pyStrip "  \t " = "" ∧
    ProjectReviewService.reject wStoreCompleted 1 10 "  \t " 7 9 = (wStoreCompleted, none) :=
  ⟨by decide,
   c8_reject_blank_text_no_mutation wStoreCompleted 1 10 "  \t " 7 9 (by decide)⟩

/-! ### C3 — feedback upsert happens before the conditional check -/

/-- C3: in both `approve` and `reject` the Feedback upsert executes before
the conditional state transition is checked: whenever the conditional match
fails (no project with this id owned by this customer in state COMPLETED),
the call returns None ("Denied") and yet the resulting store contains a
Feedback row for the project carrying the submitted text (for `reject`,
provided the text passed the blank check that precedes the upsert). -/
theorem c3_feedback_written_despite_denial (s : Store) (project_id customer_id : Nat)
    (text : String) (fb_id now : Nat)
    (hno : ¬ ∃ p ∈ s.projects, p.id = project_id ∧ p.customer_id = customer_id ∧
      p.state = ProjectState.COMPLETED) :
    ((ProjectReviewService.approve s project_id customer_id text fb_id now).2 = none ∧
     ∃ fb ∈ (ProjectReviewService.approve s project_id customer_id text fb_id now).1.feedbacks,
       fb.project_id = project_id ∧ fb.text = text) ∧
    (pyStrip text ≠ "" →
     (ProjectReviewService.reject s project_id customer_id text fb_id now).2 = none ∧
     ∃ fb ∈ (ProjectReviewService.reject s project_id customer_id text fb_id now).1.feedbacks,
       fb.project_id = project_id ∧ fb.text = text) := by
  have hfalse : ∀ p ∈ s.projects,
      (p.id == project_id && p.customer_id == customer_id &&
        decide (p.state = ProjectState.COMPLETED)) = false := by
    intro p hp
    cases hb : (p.id == project_id && p.customer_id == customer_id &&
        decide (p.state = ProjectState.COMPLETED)) with
    | false => rfl
    | true =>
        exfalso
        apply hno
        refine ⟨p, hp, ?_⟩
        simpa [and_assoc] using hb
  obtain ⟨hmem, hpid, htext⟩ := upsert_for_project_spec s.feedbacks
    { id := fb_id, project_id := project_id, text := text, created_at := now }
  constructor
  · constructor
    · simp only [ProjectReviewService.approve,
        ProjectRepository.set_feedback_and_state_if_customer,
        updateFirst_of_all_false hfalse]
      simp
    · exact ⟨_, hmem, hpid, htext⟩
  · intro hstrip
    have hfb : (ProjectReviewService.reject s project_id customer_id text fb_id now)
        = (let fr := FeedbackRepository.upsert_for_project s.feedbacks
             { id := fb_id, project_id := project_id, text := text, created_at := now }
           let pr := ProjectRepository.set_feedback_and_state_if_customer s.projects
             project_id customer_id ProjectState.COMPLETED ProjectState.ASSIGNED fr.2.id
           ({ projects := pr.1, feedbacks := fr.1 },
            if pr.2 then some { new_state := ProjectState.ASSIGNED } else none)) := by
      simp only [ProjectReviewService.reject, if_neg hstrip]
    constructor
    · rw [hfb]
      simp only [ProjectRepository.set_feedback_and_state_if_customer,
        updateFirst_of_all_false hfalse]
      simp
    · rw [hfb]
      exact ⟨_, hmem, hpid, htext⟩

/-- Witness for C3 at a concrete store: the only project is CLOSED, so the
review match fails for both calls, yet the feedback row is present. -/
theorem c3_feedback_written_despite_denial_witness :
    (¬ ∃ p ∈ wStoreClosed.projects,
        p.id = 1 ∧ p.customer_id = 10 ∧ p.state = ProjectState.COMPLETED) ∧
    pyStrip "needs work" ≠ "" ∧
    ((ProjectReviewService.approve wStoreClosed 1 10 "needs work" 7 9).2 = none ∧
     ∃ fb ∈ (ProjectReviewService.approve wStoreClosed 1 10 "needs work" 7 9).1.feedbacks,
       fb.project_id = 1 ∧ fb.text = "needs work") :=
  ⟨by decide, by decide,
   (c3_feedback_written_despite_denial wStoreClosed 1 10 "needs work" 7 9 (by decide)).1⟩

/-! ### C10 — successful review changes only state and feedback_id -/

/-- C10: a successful `approve` or `reject` leaves every project field
except `state` and `feedback_id` unchanged: each project in the resulting
collection corresponds to a project of the original collection with the
same id, customer, translator, language code, file references and creation
time. -/
theorem c10_review_modifies_only_state_and_feedback (s : Store)
    (project_id customer_id : Nat) (text : String) (fb_id now : Nat) :
    (∀ s' r, ProjectReviewService.approve s project_id customer_id text fb_id now
        = (s', some r) →
      ∀ q ∈ s'.projects, ∃ p ∈ s.projects, q.id = p.id ∧ q.customer_id = p.customer_id ∧
        q.translator_id = p.translator_id ∧ q.language_code = p.language_code ∧
        q.original_file_id = p.original_file_id ∧
        q.translated_file_id = p.translated_file_id ∧ q.created_at = p.created_at) ∧
    (∀ s' r, ProjectReviewService.reject s project_id customer_id text fb_id now
        = (s', some r) →
      ∀ q ∈ s'.projects, ∃ p ∈ s.projects, q.id = p.id ∧ q.customer_id = p.customer_id ∧
        q.translator_id = p.translator_id ∧ q.language_code = p.language_code ∧
        q.original_file_id = p.original_file_id ∧
        q.translated_file_id = p.translated_file_id ∧ q.created_at = p.created_at) := by
  constructor
  · intro s' r h q hq
    have hs' : s' = (ProjectReviewService.approve s project_id customer_id text fb_id now).1 := by
      rw [h]
    have hproj : s'.projects
        = (ProjectRepository.set_feedback_and_state_if_customer s.projects project_id
            customer_id ProjectState.COMPLETED ProjectState.APPROVED
            (FeedbackRepository.upsert_for_project s.feedbacks
              { id := fb_id, project_id := project_id, text := text,
                created_at := now }).2.id).1 := by
      rw [hs']
      rfl
    rw [hproj] at hq
    rcases updateFirst_mem hq with hqs | ⟨x, hx, _, hpatch⟩
    · exact ⟨q, hqs, rfl, rfl, rfl, rfl, rfl, rfl, rfl⟩
    · rw [hpatch]
      exact ⟨x, hx, rfl, rfl, rfl, rfl, rfl, rfl, rfl⟩
  · intro s' r h q hq
    by_cases hstrip : pyStrip text = ""
    · simp only [ProjectReviewService.reject, if_pos hstrip] at h
      simp at h
    · have hfb : (ProjectReviewService.reject s project_id customer_id text fb_id now)
          = (let fr := FeedbackRepository.upsert_for_project s.feedbacks
               { id := fb_id, project_id := project_id, text := text, created_at := now }
             let pr := ProjectRepository.set_feedback_and_state_if_customer s.projects
               project_id customer_id ProjectState.COMPLETED ProjectState.ASSIGNED fr.2.id
             ({ projects := pr.1, feedbacks := fr.1 },
              if pr.2 then some { new_state := ProjectState.ASSIGNED } else none)) := by
        simp only [ProjectReviewService.reject, if_neg hstrip]
      have hs' : s' = (ProjectReviewService.reject s project_id customer_id text fb_id now).1 := by
        rw [h]
      have hproj : s'.projects
          = (ProjectRepository.set_feedback_and_state_if_customer s.projects project_id
              customer_id ProjectState.COMPLETED ProjectState.ASSIGNED
              (FeedbackRepository.upsert_for_project s.feedbacks
                { id := fb_id, project_id := project_id, text := text,
                  created_at := now }).2.id).1 := by
        rw [hs', hfb]
      rw [hproj] at hq
      rcases updateFirst_mem hq with hqs | ⟨x, hx, _, hpatch⟩
      · exact ⟨q, hqs, rfl, rfl, rfl, rfl, rfl, rfl, rfl⟩
      · rw [hpatch]
        exact ⟨x, hx, rfl, rfl, rfl, rfl, rfl, rfl, rfl⟩

/-- Witness for C10 at a concrete store: a successful approve, whose only
changes to the project are `state` and `feedback_id`. -/
theorem c10_review_modifies_only_state_and_feedback_witness :
    ProjectReviewService.approve wStoreCompleted 1 10 "ok" 7 9
      = ({ projects := [wProjApproved], feedbacks := [wFbOk] },
         some { new_state := ProjectState.APPROVED }) ∧
    (∃ p ∈ wStoreCompleted.projects,
      wProjApproved.id = p.id ∧ wProjApproved.customer_id = p.customer_id ∧
      wProjApproved.translator_id = p.translator_id ∧
      wProjApproved.language_code = p.language_code ∧
      wProjApproved.original_file_id = p.original_file_id ∧
      wProjApproved.translated_file_id = p.translated_file_id ∧
      wProjApproved.created_at = p.created_at) :=
  ⟨by decide,
   (c10_review_modifies_only_state_and_feedback wStoreCompleted 1 10 "ok" 7 9).1
     { projects := [wProjApproved], feedbacks := [wFbOk] }
     { new_state := ProjectState.APPROVED } (by decide) wProjApproved (by decide)⟩

/-! ### C4 — the assignment engine picks the first minimum-load candidate -/

theorem find_best_loop_eq_selGo (counts : Nat → Nat) (b : Nat) (l : List Nat) :
    find_best_loop counts (some (b, counts b)) l
      = some (selGo counts b l, counts (selGo counts b l)) := by
  induction l generalizing b with
  | nil => rfl
  | cons t rest ih =>
      by_cases h : counts t < counts b
      · simp only [find_best_loop, selGo, if_pos h]
        exact ih t
      · simp only [find_best_loop, selGo, if_neg h]
        exact ih b

theorem selGo_min (counts : Nat → Nat) (l : List Nat) :
    ∀ b, counts (selGo counts b l) ≤ counts b ∧
      ∀ t ∈ l, counts (selGo counts b l) ≤ counts t := by
  induction l with
  | nil =>
      intro b
      exact ⟨Nat.le_refl _, by simp⟩
  | cons t rest ih =>
      intro b
      by_cases h : counts t < counts b
      · obtain ⟨h1, h2⟩ := ih t
        simp only [selGo, if_pos h]
        refine ⟨Nat.le_trans h1 (Nat.le_of_lt h), ?_⟩
        intro z hz
        rcases List.mem_cons.mp hz with hz | hz
        · exact hz ▸ h1
        · exact h2 z hz
      · obtain ⟨h1, h2⟩ := ih b
        simp only [selGo, if_neg h]
        refine ⟨h1, ?_⟩
        intro z hz
        rcases List.mem_cons.mp hz with hz | hz
        · exact hz ▸ Nat.le_trans h1 (Nat.le_of_not_lt h)
        · exact h2 z hz

theorem selGo_first (counts : Nat → Nat) (l : List Nat) :
    ∀ b, ∃ l1 l2, b :: l = l1 ++ selGo counts b l :: l2 ∧
      ∀ t ∈ l1, counts (selGo counts b l) < counts t := by
  induction l with
  | nil =>
      intro b
      exact ⟨[], [], rfl, by simp⟩
  | cons t rest ih =>
      intro b
      by_cases h : counts t < counts b
      · obtain ⟨l1, l2, he, hlt⟩ := ih t
        refine ⟨b :: l1, l2, ?_, ?_⟩
        · simp only [selGo, if_pos h]
          rw [List.cons_append, ← he]
        · intro z hz
          simp only [selGo, if_pos h]
          rcases List.mem_cons.mp hz with hz | hz
          · have hle : counts (selGo counts t rest) ≤ counts t := (selGo_min counts rest t).1
            exact hz ▸ Nat.lt_of_le_of_lt hle h
          · simpa [selGo] using hlt z hz
      · obtain ⟨l1, l2, he, hlt⟩ := ih b
        cases l1 with
        | nil =>
            simp only [List.nil_append] at he
            have hb : selGo counts b rest = b := by
              have := he
              injection this with h1 _
              exact h1.symm
            refine ⟨[], t :: rest, ?_, by simp⟩
            simp only [selGo, if_neg h, hb, List.nil_append]
        | cons a l1' =>
            rw [List.cons_append] at he
            injection he with h1 h2
            refine ⟨b :: t :: l1', l2, ?_, ?_⟩
            · simp only [selGo, if_neg h]
              rw [List.cons_append, List.cons_append, ← h2]
            · intro z hz
              simp only [selGo, if_neg h]
              have hrb : counts (selGo counts b rest) < counts b := by
                apply hlt
                rw [h1]
                exact List.mem_cons_self a l1'
              rcases List.mem_cons.mp hz with hz | hz
              · exact hz ▸ hrb
              · rcases List.mem_cons.mp hz with hz' | hz'
                · exact hz' ▸ Nat.lt_of_lt_of_le hrb (Nat.le_of_not_lt h)
                · exact hlt z (List.mem_cons_of_mem a hz')

/-- C4: for every non-empty candidate list and every active-count mapping,
the selection loop of `find_best_translator_id` returns the candidate with
the minimum count, and among ties the first candidate in capability-listing
order: the list splits as `l1 ++ b :: l2` where every candidate before `b`
has a strictly larger count, and no candidate anywhere has a smaller one.
The result is a function of the candidate list and the count mapping, hence
deterministic. -/
theorem c4_assignment_selects_first_minimum (counts : Nat → Nat) (translator_ids : List Nat)
    (hne : translator_ids ≠ []) :
    ∃ b l1 l2, find_best_from_counts counts translator_ids = some b ∧
      translator_ids = l1 ++ b :: l2 ∧
      (∀ t ∈ translator_ids, counts b ≤ counts t) ∧
      (∀ t ∈ l1, counts b < counts t) := by
  cases translator_ids with
  | nil => exact absurd rfl hne
  | cons t rest =>
      have hval : find_best_from_counts counts (t :: rest) = some (selGo counts t rest) := by
        have h0 : find_best_from_counts counts (t :: rest)
            = (find_best_loop counts none (t :: rest)).map Prod.fst := by
          simp [find_best_from_counts]
        rw [h0, show find_best_loop counts none (t :: rest)
            = find_best_loop counts (some (t, counts t)) rest from rfl,
          find_best_loop_eq_selGo]
        rfl
      obtain ⟨l1, l2, he, hlt⟩ := selGo_first counts rest t
      obtain ⟨h1, h2⟩ := selGo_min counts rest t
      refine ⟨selGo counts t rest, l1, l2, hval, he, ?_, hlt⟩
      intro z hz
      rcases List.mem_cons.mp hz with hz | hz
      · exact hz ▸ h1
      · exact h2 z hz

/-- Witness for C4 on the spec's example: active counts 5, 1, 1 for the
candidates 10, 20, 30 in listing order — the engine picks 20, the first
candidate with count 1. -/
theorem c4_assignment_selects_first_minimum_witness :
    ([10, 20, 30] : List Nat) ≠ [] ∧
    (∃ b l1 l2,
      find_best_from_counts (fun t => if t = 10 then 5 else 1) [10, 20, 30] = some b ∧
      ([10, 20, 30] : List Nat) = l1 ++ b :: l2 ∧
      (∀ t ∈ ([10, 20, 30] : List Nat),
        (fun t => if t = 10 then 5 else 1) b ≤ (fun t => if t = 10 then 5 else 1) t) ∧
      (∀ t ∈ l1, (fun t => if t = 10 then 5 else 1) b < (fun t => if t = 10 then 5 else 1) t)) ∧
    find_best_from_counts (fun t => if t = 10 then 5 else 1) [10, 20, 30] = some 20 :=
  ⟨by decide,
   c4_assignment_selects_first_minimum (fun t => if t = 10 then 5 else 1) [10, 20, 30]
     (by decide),
   by decide⟩

/-! ### C6 — notifier failures propagate (but never roll back the commit) -/

theorem create_project_finish_fst (s : Store) (new_pid : Nat) (tid : Option Nat) :
    (create_project_finish s new_pid tid).1 = s := by
  unfold create_project_finish
  cases h : ProjectRepository.get_by_id s.projects new_pid <;> rfl

/-- C6 (counterexample): the claim says an error raised by the Notifier's
`send` is caught and logged by the caller and never propagated.  In the
code there is no try/except on any `mailer.send` call path
(`EmailService.send` opens the SMTP connection directly and
`ProjectService.create_project` calls it bare), so with a failing mailer
the created-and-assigned project is committed, yet the operation raises:
the caller sees the SMTP error instead of the result. -/
theorem c6_counterexample :
    (ProjectService.create_project { projects := [], feedbacks := [] } wCaps wUsers
        wCustomer "cs" 0 1 1 "o" 0 false).2
      = Except.error ApiErr.smtpError ∧
    (ProjectService.create_project { projects := [], feedbacks := [] } wCaps wUsers
        wCustomer "cs" 0 1 1 "o" 0 false).1
      = wStoreAssigned :=
  ⟨by decide, by decide⟩

/-- C6 (amended): notification dispatch happens strictly after the
state-mutating writes and a notifier failure never rolls back or retries
the committed state change — the resulting store is identical whether or
not the SMTP send raises.  However the error is not caught by the caller:
whenever `create_project` reaches a send call and the mailer raises, the
exception propagates out of the core operation. -/
theorem c6_notification_failure (s : Store) (caps : List TranslatorLanguage)
    (users : List User) (customer : User) (language_code : String)
    (content_len max_bytes new_pid : Nat) (file_id : String) (now : Nat) :
    (ProjectService.create_project s caps users customer language_code content_len
        max_bytes new_pid file_id now false).1
      = (ProjectService.create_project s caps users customer language_code content_len
        max_bytes new_pid file_id now true).1 ∧
    (create_sendAttempted s caps users customer language_code content_len max_bytes
        new_pid file_id now = true →
      (ProjectService.create_project s caps users customer language_code content_len
        max_bytes new_pid file_id now false).2 = Except.error ApiErr.smtpError) := by
  by_cases hrole : customer.role = UserRole.CUSTOMER
  · by_cases hsize : content_len > max_bytes
    · constructor
      · simp [ProjectService.create_project, hrole, hsize]
      · intro hatt
        simp [create_sendAttempted, hrole, hsize] at hatt
    · constructor
      · simp only [ProjectService.create_project, hrole, hsize, ne_eq, not_true_eq_false,
          Bool.false_eq_true, if_false, ite_false, ite_true]
        split
        · split
          · simp [create_project_finish_fst]
          · rfl
        · split
          · simp [create_project_finish_fst]
          · rfl
      · intro hatt
        simp only [create_sendAttempted, hrole, hsize, ne_eq, not_true_eq_false,
          Bool.false_eq_true, if_false, ite_false, ite_true] at hatt
        simp only [ProjectService.create_project, hrole, hsize, ne_eq, not_true_eq_false,
          Bool.false_eq_true, if_false, ite_false, ite_true]
        split at hatt
        · obtain ⟨u, hu⟩ := Option.isSome_iff_exists.mp hatt
          rw [hu]
        · obtain ⟨u, hu⟩ := Option.isSome_iff_exists.mp hatt
          rw [hu]
  · constructor
    · simp [ProjectService.create_project, hrole]
    · intro hatt
      simp [create_sendAttempted, hrole] at hatt

/-- Witness for C6 at the concrete inputs of the counterexample: the store
with a failing mailer equals the store with a working one, and since the
send is attempted, the failing run propagates the SMTP error. -/
theorem c6_notification_failure_witness :
    (ProjectService.create_project { projects := [], feedbacks := [] } wCaps wUsers
        wCustomer "cs" 0 1 1 "o" 0 false).1
      = (ProjectService.create_project { projects := [], feedbacks := [] } wCaps wUsers
        wCustomer "cs" 0 1 1 "o" 0 true).1 ∧
    create_sendAttempted { projects := [], feedbacks := [] } wCaps wUsers wCustomer
        "cs" 0 1 1 "o" 0 = true ∧
    (ProjectService.create_project { projects := [], feedbacks := [] } wCaps wUsers
        wCustomer "cs" 0 1 1 "o" 0 false).2 = Except.error ApiErr.smtpError :=
  ⟨(c6_notification_failure { projects := [], feedbacks := [] } wCaps wUsers wCustomer
      "cs" 0 1 1 "o" 0).1,
   rfl,
   (c6_notification_failure { projects := [], feedbacks := [] } wCaps wUsers wCustomer
      "cs" 0 1 1 "o" 0).2 rfl⟩

/-! ### Shape lemmas for the operations -/

theorem assign_or_close_cases (col : List Project) (caps : List TranslatorLanguage)
    (project_id : Nat) (language_code : String) :
    (∃ t, ProjectAssignmentService.assign_or_close col caps project_id language_code
        = (ProjectRepository.assign_translator col project_id t ProjectState.ASSIGNED,
           some t)) ∨
    ProjectAssignmentService.assign_or_close col caps project_id language_code
        = (ProjectRepository.close_project col project_id, none) := by
  unfold ProjectAssignmentService.assign_or_close
  cases h : ProjectAssignmentService.find_best_translator_id col caps language_code with
  | none => right; rfl
  | some t => left; exact ⟨t, rfl⟩

theorem create_project_fst (s : Store) (caps : List TranslatorLanguage) (users : List User)
    (customer : User) (language_code : String) (content_len max_bytes new_pid : Nat)
    (file_id : String) (now : Nat) (mailerOk : Bool) :
    (ProjectService.create_project s caps users customer language_code content_len
        max_bytes new_pid file_id now mailerOk).1 = s ∨
    (ProjectService.create_project s caps users customer language_code content_len
        max_bytes new_pid file_id now mailerOk).1
      = { projects := (ProjectAssignmentService.assign_or_close
            (s.projects ++ [mkCreatedProject customer language_code new_pid file_id now])
            caps new_pid
            (mkCreatedProject customer language_code new_pid file_id now).language_code).1,
          feedbacks := s.feedbacks } := by
  by_cases hrole : customer.role = UserRole.CUSTOMER
  · by_cases hsize : content_len > max_bytes
    · left
      simp [ProjectService.create_project, hrole, hsize]
    · right
      simp only [ProjectService.create_project, hrole, hsize, ne_eq, not_true_eq_false,
        Bool.false_eq_true, if_false, ite_false, ite_true]
      split <;> split
      · split <;> simp [create_project_finish_fst]
      · simp [create_project_finish_fst]
      · split <;> simp [create_project_finish_fst]
      · simp [create_project_finish_fst]
  · left
    simp [ProjectService.create_project, hrole]

theorem submitTranslationApi_fst (s : Store) (caller : User) (project_id : Nat)
    (content_len max_bytes : Nat) (translated_file_id : String) :
    (submitTranslationApi s caller project_id content_len max_bytes translated_file_id).1 = s ∨
    (∃ project, ProjectRepository.get_by_id s.projects project_id = some project ∧
      (project.state = ProjectState.ASSIGNED ∨ project.state = ProjectState.COMPLETED) ∧
      project.translator_id = some caller.id ∧
      (submitTranslationApi s caller project_id content_len max_bytes translated_file_id).1
        = { s with projects := (ProjectRepository.submit_translation s.projects project_id
            caller.id translated_file_id).1 }) := by
  unfold submitTranslationApi
  by_cases h1 : caller.role = UserRole.TRANSLATOR
  · simp only [h1, ne_eq, not_true_eq_false, Bool.false_eq_true, if_false, ite_false,
      ite_true]
    cases h2 : ProjectRepository.get_by_id s.projects project_id with
    | none => left; rfl
    | some project =>
        by_cases h3 : project.translator_id = some caller.id
        · by_cases h4 : project.state = ProjectState.ASSIGNED ∨
              project.state = ProjectState.COMPLETED
          · by_cases h5 : content_len > max_bytes
            · left
              simp [h3, h4, h5]
            · right
              refine ⟨project, rfl, h4, h3, ?_⟩
              simp only [h3, h4, h5, ne_eq, not_true_eq_false, not_false_eq_true,
                Bool.false_eq_true, if_false, ite_false, ite_true, not_true, if_true]
              split <;> rfl
          · left
            simp [h3, h4]
        · left
          simp [h3]
  · left
    simp [h1]

/-! ### C1 — CLOSED is terminal -/

/-- C1: CLOSED is a terminal project state.  For every core operation (the
full create-and-assign workflow, translation submission through its API
handler, approve, reject, and administrative close), a project whose
persisted state is CLOSED before the operation still has state CLOSED
afterwards; in particular a translation submission for a CLOSED project by
its recorded translator is rejected by the handler's state guard and the
state stays CLOSED.  Project ids are assumed unique (the collection's
unique index on `id`). -/
theorem c1_closed_state_is_terminal {s s' : Store} {sub sub' : Nat → Bool}
    (hstep : Step s sub s' sub') (hnd : (s.projects.map Project.id).Nodup) :
    ∀ p ∈ s.projects, p.state = ProjectState.CLOSED →
      ∀ q ∈ s'.projects, q.id = p.id → q.state = ProjectState.CLOSED := by
  intro p hp hclosed q hq hid
  have hinj := List.inj_on_of_nodup_map hnd
  cases hstep with
  | createProject caps users customer language_code content_len max_bytes new_pid
      file_id now mailerOk hfresh =>
      rcases create_project_fst s caps users customer language_code content_len max_bytes
          new_pid file_id now mailerOk with hcase | hcase
      · rw [hcase] at hq
        rw [hinj hq hp hid]
        exact hclosed
      · rw [hcase] at hq
        have hfresh' : p.id ≠ new_pid := hfresh p hp
        rcases assign_or_close_cases
            (s.projects ++ [mkCreatedProject customer language_code new_pid file_id now])
            caps new_pid
            (mkCreatedProject customer language_code new_pid file_id now).language_code
          with ⟨t, hA⟩ | hA
        · rw [hA] at hq
          have hq' : q ∈ ProjectRepository.assign_translator
              (s.projects ++ [mkCreatedProject customer language_code new_pid file_id now])
              new_pid t ProjectState.ASSIGNED := hq
          rcases updateFirst_mem hq' with hmem | ⟨x, hx, hpred, hpatch⟩
          · rcases List.mem_append.mp hmem with hmem | hmem
            · rw [hinj hmem hp hid]
              exact hclosed
            · exfalso
              apply hfresh'
              have hqid : q.id = new_pid := by
                simp [List.mem_singleton.mp hmem, mkCreatedProject]
              rw [← hid]
              exact hqid
          · exfalso
            apply hfresh'
            have hxid : x.id = new_pid := by simpa using hpred
            rw [← hid, hpatch]
            exact hxid
        · rw [hA] at hq
          have hq' : q ∈ ProjectRepository.close_project
              (s.projects ++ [mkCreatedProject customer language_code new_pid file_id now])
              new_pid := hq
          rcases updateFirst_mem hq' with hmem | ⟨x, hx, hpred, hpatch⟩
          · rcases List.mem_append.mp hmem with hmem | hmem
            · rw [hinj hmem hp hid]
              exact hclosed
            · exfalso
              apply hfresh'
              have hqid : q.id = new_pid := by
                simp [List.mem_singleton.mp hmem, mkCreatedProject]
              rw [← hid]
              exact hqid
          · rw [hpatch]
  | submitTranslation caller project_id content_len max_bytes translated_file_id =>
      rcases submitTranslationApi_fst s caller project_id content_len max_bytes
          translated_file_id with hcase | ⟨project, hget, hstates, htrans, hcase⟩
      · rw [hcase] at hq
        rw [hinj hq hp hid]
        exact hclosed
      · rw [hcase] at hq
        have hq' : q ∈ (ProjectRepository.submit_translation s.projects project_id
            caller.id translated_file_id).1 := hq
        rcases updateFirst_mem hq' with hmem | ⟨x, hx, hpred, hpatch⟩
        · rw [hinj hmem hp hid]
          exact hclosed
        · exfalso
          have hget' : s.projects.find? (fun r => r.id == project_id) = some project := hget
          have hproj_mem : project ∈ s.projects := List.mem_of_find?_eq_some hget'
          simp only [Bool.and_eq_true, beq_iff_eq] at hpred
          have hproj_id : project.id = p.id := by
            have h1 : project.id = project_id := by
              simpa using List.find?_some hget'
            have h3 : q.id = x.id := by rw [hpatch]
            rw [h1, ← hpred.1, ← h3, hid]
          have hpp : project = p := hinj hproj_mem hp hproj_id
          rw [hpp, hclosed] at hstates
          rcases hstates with h | h <;> exact ProjectState.noConfusion h
  | approve project_id customer_id text fb_id now =>
      have hq' : q ∈ (ProjectRepository.set_feedback_and_state_if_customer s.projects
          project_id customer_id ProjectState.COMPLETED ProjectState.APPROVED
          (FeedbackRepository.upsert_for_project s.feedbacks
            { id := fb_id, project_id := project_id, text := text,
              created_at := now }).2.id).1 := hq
      rcases updateFirst_mem hq' with hmem | ⟨x, hx, hpred, hpatch⟩
      · rw [hinj hmem hp hid]
        exact hclosed
      · exfalso
        simp only [Bool.and_eq_true, beq_iff_eq, decide_eq_true_eq] at hpred
        have hqx : q.id = x.id := by rw [hpatch]
        have hxp : x = p := by
          apply hinj hx hp
          rw [← hid, hqx]
        have hxc := hpred.2
        rw [hxp, hclosed] at hxc
        exact ProjectState.noConfusion hxc
  | reject project_id customer_id text fb_id now =>
      by_cases hstrip : pyStrip text = ""
      · have hq' : q ∈ s.projects := by
          simpa [ProjectReviewService.reject, if_pos hstrip] using hq
        rw [hinj hq' hp hid]
        exact hclosed
      · have hq' : q ∈ (ProjectRepository.set_feedback_and_state_if_customer s.projects
            project_id customer_id ProjectState.COMPLETED ProjectState.ASSIGNED
            (FeedbackRepository.upsert_for_project s.feedbacks
              { id := fb_id, project_id := project_id, text := text,
                created_at := now }).2.id).1 := by
          have hfb : (ProjectReviewService.reject s project_id customer_id text fb_id now).1
              = { projects := (ProjectRepository.set_feedback_and_state_if_customer
                    s.projects project_id customer_id ProjectState.COMPLETED
                    ProjectState.ASSIGNED
                    (FeedbackRepository.upsert_for_project s.feedbacks
                      { id := fb_id, project_id := project_id, text := text,
                        created_at := now }).2.id).1,
                  feedbacks := (FeedbackRepository.upsert_for_project s.feedbacks
                    { id := fb_id, project_id := project_id, text := text,
                      created_at := now }).1 } := by
            simp only [ProjectReviewService.reject, if_neg hstrip]
          rw [hfb] at hq
          exact hq
        rcases updateFirst_mem hq' with hmem | ⟨x, hx, hpred, hpatch⟩
        · rw [hinj hmem hp hid]
          exact hclosed
        · exfalso
          simp only [Bool.and_eq_true, beq_iff_eq, decide_eq_true_eq] at hpred
          have hqx : q.id = x.id := by rw [hpatch]
          have hxp : x = p := by
            apply hinj hx hp
            rw [← hid, hqx]
          have hxc := hpred.2
          rw [hxp, hclosed] at hxc
          exact ProjectState.noConfusion hxc
  | closeProject caller project_id =>
      by_cases h1 : caller.role = UserRole.ADMINISTRATOR
      · cases h2 : ProjectRepository.get_by_id s.projects project_id with
        | none =>
            have hq' : q ∈ s.projects := by
              simpa [adminCloseProjectApi, h1, h2] using hq
            rw [hinj hq' hp hid]
            exact hclosed
        | some project =>
            have hq' : q ∈ ProjectRepository.close_project s.projects project_id := by
              simpa [adminCloseProjectApi, h1, h2] using hq
            rcases updateFirst_mem hq' with hmem | ⟨x, hx, hpred, hpatch⟩
            · rw [hinj hmem hp hid]
              exact hclosed
            · rw [hpatch]
      · have hq' : q ∈ s.projects := by
          simpa [adminCloseProjectApi, h1] using hq
        rw [hinj hq' hp hid]
        exact hclosed

/-- Witness for C1: the administrator closes an already-CLOSED project; the
state stays CLOSED. -/
theorem c1_closed_state_is_terminal_witness :
    (wStoreClosed.projects.map Project.id).Nodup ∧
    wProjClosed.state = ProjectState.CLOSED :=
  ⟨by decide,
   c1_closed_state_is_terminal (Step.closeProject wStoreClosed (fun _ => false) wAdmin 1)
     (by decide) wProjClosed (by decide) (by decide) wProjClosed (by decide) rfl⟩

/-! ### C5 — the translated-file invariant over reachable stores -/

theorem updateFirst_fst_of_snd_false {α} {pred : α → Bool} {patch : α → α} {l : List α}
    (h : (updateFirst pred patch l).2 = false) : (updateFirst pred patch l).1 = l := by
  have hall : ∀ x ∈ l, pred x = false := by
    intro x hx
    cases hb : pred x with
    | false => rfl
    | true =>
        have htrue : (updateFirst pred patch l).2 = true :=
          updateFirst_snd_iff.mpr ⟨x, hx, hb⟩
        rw [h] at htrue
        exact Bool.noConfusion htrue
  exact updateFirst_fst_of_all_false hall

theorem projInv_congr {sub sub' : Nat → Bool} {p : Project} (h : ProjInv sub p)
    (he : sub' p.id = sub p.id) : ProjInv sub' p := by
  obtain ⟨hA, hB, hC⟩ := h
  refine ⟨?_, ?_, hC⟩
  · rw [he]
    exact hA
  · rw [he]
    exact hB

theorem storeInv_congr {s : Store} {sub sub' : Nat → Bool} (h : StoreInv s sub)
    (he : ∀ i, sub' i = sub i) : StoreInv s sub' := by
  obtain ⟨h1, h2, h3⟩ := h
  refine ⟨h1, ?_, ?_⟩
  · intro i hi
    rw [he i] at hi
    exact h2 i hi
  · intro p hp
    exact projInv_congr (h3 p hp) (he p.id)

theorem submitTranslationApi_ok_cases (s : Store) (caller : User) (project_id : Nat)
    (content_len max_bytes : Nat) (translated_file_id : String) :
    ((submitTranslationApi s caller project_id content_len max_bytes translated_file_id).1 = s ∧
     isOkUnit (submitTranslationApi s caller project_id content_len max_bytes
       translated_file_id).2 = false) ∨
    (∃ (l1 : List Project) (x : Project) (l2 : List Project), s.projects = l1 ++ x :: l2 ∧
      (∀ z ∈ l1, (z.id == project_id) = false) ∧
      x.id = project_id ∧ x.translator_id = some caller.id ∧
      (x.state = ProjectState.ASSIGNED ∨ x.state = ProjectState.COMPLETED) ∧
      (submitTranslationApi s caller project_id content_len max_bytes translated_file_id).1
        = { s with projects := l1 ++
            { x with translated_file_id := some translated_file_id,
                     state := ProjectState.COMPLETED } :: l2 } ∧
      isOkUnit (submitTranslationApi s caller project_id content_len max_bytes
        translated_file_id).2 = true) := by
  unfold submitTranslationApi
  by_cases h1 : caller.role = UserRole.TRANSLATOR
  · simp only [h1, ne_eq, not_true_eq_false, Bool.false_eq_true, if_false, ite_false,
      ite_true]
    cases h2 : ProjectRepository.get_by_id s.projects project_id with
    | none => left; exact ⟨rfl, rfl⟩
    | some project =>
        by_cases h3 : project.translator_id = some caller.id
        · by_cases h4 : project.state = ProjectState.ASSIGNED ∨
              project.state = ProjectState.COMPLETED
          · by_cases h5 : content_len > max_bytes
            · left
              simp [h3, h4, h5, isOkUnit]
            · have hget' : s.projects.find? (fun r => r.id == project_id) = some project := h2
              obtain ⟨l1, l2, hsplit, hl1, hx⟩ := find?_decomp hget'
              have hl1' : ∀ z ∈ l1,
                  (z.id == project_id && z.translator_id == some caller.id) = false := by
                intro z hz
                rw [hl1 z hz]
                rfl
              have hxpred : (project.id == project_id &&
                  project.translator_id == some caller.id) = true := by
                rw [hx, h3]
                simp
              have hrepo : ProjectRepository.submit_translation s.projects project_id
                  caller.id translated_file_id
                  = (l1 ++ { project with
                             translated_file_id := some translated_file_id,
                             state := ProjectState.COMPLETED } :: l2, true) := by
                show updateFirst _ _ s.projects = _
                rw [hsplit]
                exact updateFirst_append_match hl1' hxpred
              right
              refine ⟨l1, project, l2, hsplit, hl1, by simpa using hx, h3, h4, ?_, ?_⟩
              · simp only [h3, h4, h5, ne_eq, not_true_eq_false, not_false_eq_true,
                  Bool.false_eq_true, if_false, ite_false, ite_true, hrepo]
              · simp only [h3, h4, h5, ne_eq, not_true_eq_false, not_false_eq_true,
                  Bool.false_eq_true, if_false, ite_false, ite_true, hrepo]
                rfl
          · left
            simp [h3, h4, isOkUnit]
        · left
          simp [h3, isOkUnit]
  · left
    simp [h1, isOkUnit]

theorem projInvs_after_review {l : List Project} {sub : Nat → Bool}
    (hnd : (l.map Project.id).Nodup)
    (hcov : ∀ i, sub i = true → i ∈ l.map Project.id)
    (hproj : ∀ p ∈ l, ProjInv sub p)
    (project_id customer_id fid : Nat) (new_state : ProjectState)
    (hns : new_state ≠ ProjectState.CREATED) :
    (((ProjectRepository.set_feedback_and_state_if_customer l project_id customer_id
        ProjectState.COMPLETED new_state fid).1.map Project.id).Nodup ∧
     (∀ i, sub i = true → i ∈ (ProjectRepository.set_feedback_and_state_if_customer l
        project_id customer_id ProjectState.COMPLETED new_state fid).1.map Project.id) ∧
     ∀ p ∈ (ProjectRepository.set_feedback_and_state_if_customer l project_id customer_id
        ProjectState.COMPLETED new_state fid).1, ProjInv sub p) := by
  have hmap : (ProjectRepository.set_feedback_and_state_if_customer l project_id customer_id
      ProjectState.COMPLETED new_state fid).1.map Project.id = l.map Project.id := by
    apply updateFirst_map_eq
    intro z
    rfl
  refine ⟨by rw [hmap]; exact hnd, ?_, ?_⟩
  · intro i hi
    rw [hmap]
    exact hcov i hi
  · cases hflag : (ProjectRepository.set_feedback_and_state_if_customer l project_id
        customer_id ProjectState.COMPLETED new_state fid).2 with
    | false =>
        have hfst : (ProjectRepository.set_feedback_and_state_if_customer l project_id
            customer_id ProjectState.COMPLETED new_state fid).1 = l :=
          updateFirst_fst_of_snd_false hflag
        intro p hp
        rw [hfst] at hp
        exact hproj p hp
    | true =>
        obtain ⟨l1, x, l2, hsplit, hl1, hxpred, hres⟩ := updateFirst_decomp hflag
        have hres' : (ProjectRepository.set_feedback_and_state_if_customer l project_id
            customer_id ProjectState.COMPLETED new_state fid).1
            = l1 ++ { x with state := new_state, feedback_id := some fid } :: l2 := hres
        intro p hp
        rw [hres'] at hp
        rcases List.mem_append.mp hp with hp | hp
        · exact hproj p (by rw [hsplit]; exact List.mem_append_left (x :: l2) hp)
        · rcases List.mem_cons.mp hp with hp | hp
          · have hx_mem : x ∈ l := by
              rw [hsplit]
              exact List.mem_append_right l1 (List.mem_cons_self x l2)
            have hxc : x.state = ProjectState.COMPLETED := by
              simp only [Bool.and_eq_true, decide_eq_true_eq] at hxpred
              exact hxpred.2
            have hsubx : sub x.id = true := (hproj x hx_mem).2.1 (Or.inl hxc)
            rw [hp]
            refine ⟨?_, ?_, hns⟩
            · show x.translated_file_id.isSome = true ↔ sub x.id = true
              exact (hproj x hx_mem).1
            · intro _
              exact hsubx
          · have hpl : p ∈ l := by
              rw [hsplit]
              exact List.mem_append_right l1 (List.mem_cons_of_mem x hp)
            exact hproj p hpl

theorem projInvs_after_close {l : List Project} {sub : Nat → Bool}
    (hnd : (l.map Project.id).Nodup)
    (hcov : ∀ i, sub i = true → i ∈ l.map Project.id)
    (hproj : ∀ p ∈ l, ProjInv sub p) (project_id : Nat) :
    (((ProjectRepository.close_project l project_id).map Project.id).Nodup ∧
     (∀ i, sub i = true → i ∈ (ProjectRepository.close_project l project_id).map Project.id) ∧
     ∀ p ∈ ProjectRepository.close_project l project_id, ProjInv sub p) := by
  have hmap : (ProjectRepository.close_project l project_id).map Project.id
      = l.map Project.id := by
    apply updateFirst_map_eq
    intro z
    rfl
  refine ⟨by rw [hmap]; exact hnd, ?_, ?_⟩
  · intro i hi
    rw [hmap]
    exact hcov i hi
  · cases hflag : (updateFirst (fun r => r.id == project_id)
        (fun r => { r with state := ProjectState.CLOSED }) l).2 with
    | false =>
        have hfst := updateFirst_fst_of_snd_false hflag
        intro p hp
        have hp' : p ∈ l := by
          rw [show ProjectRepository.close_project l project_id = l from hfst] at hp
          exact hp
        exact hproj p hp'
    | true =>
        obtain ⟨l1, x, l2, hsplit, hl1, hxpred, hres⟩ := updateFirst_decomp hflag
        intro p hp
        have hp' : p ∈ l1 ++ { x with state := ProjectState.CLOSED } :: l2 := by
          rw [show ProjectRepository.close_project l project_id
              = l1 ++ { x with state := ProjectState.CLOSED } :: l2 from hres] at hp
          exact hp
        rcases List.mem_append.mp hp' with hp2 | hp2
        · exact hproj p (by rw [hsplit]; exact List.mem_append_left (x :: l2) hp2)
        · rcases List.mem_cons.mp hp2 with hp2 | hp2
          · have hx_mem : x ∈ l := by
              rw [hsplit]
              exact List.mem_append_right l1 (List.mem_cons_self x l2)
            rw [hp2]
            refine ⟨?_, ?_, fun h => ProjectState.noConfusion h⟩
            · show x.translated_file_id.isSome = true ↔ sub x.id = true
              exact (hproj x hx_mem).1
            · intro hst
              rcases hst with h | h <;> exact ProjectState.noConfusion h
          · have hpl : p ∈ l := by
              rw [hsplit]
              exact List.mem_append_right l1 (List.mem_cons_of_mem x hp2)
            exact hproj p hpl

theorem storeInv_step {s s' : Store} {sub sub' : Nat → Bool} (hstep : Step s sub s' sub')
    (hinv : StoreInv s sub) : StoreInv s' sub' := by
  obtain ⟨hnd, hcov, hproj⟩ := hinv
  cases hstep with
  | createProject caps users customer language_code content_len max_bytes new_pid
      file_id now mailerOk hfresh =>
      rcases create_project_fst s caps users customer language_code content_len max_bytes
          new_pid file_id now mailerOk with hcase | hcase
      · rw [hcase]
        exact ⟨hnd, hcov, hproj⟩
      · rw [hcase]
        have hsubnew : sub new_pid = false := by
          cases hval : sub new_pid with
          | false => rfl
          | true =>
              exfalso
              obtain ⟨x, hx1, hx2⟩ := List.mem_map.mp (hcov new_pid hval)
              exact hfresh x hx1 hx2
        have hl1false : ∀ z ∈ s.projects, (z.id == new_pid) = false := by
          intro z hz
          cases hb : (z.id == new_pid) with
          | false => rfl
          | true => exact absurd (by simpa using hb) (hfresh z hz)
        have hnodup2 : ∀ q : Project, q.id = new_pid →
            ((s.projects ++ [q]).map Project.id).Nodup := by
          intro q hqid
          rw [List.map_append]
          refine hnd.append (by simp) ?_
          intro a ha hb
          simp only [List.map_cons, List.map_nil, List.mem_singleton] at hb
          obtain ⟨x, hx1, hx2⟩ := List.mem_map.mp ha
          rw [hb, hqid] at hx2
          exact hfresh x hx1 hx2
        have hcov2 : ∀ q : Project, ∀ i, sub i = true →
            i ∈ (s.projects ++ [q]).map Project.id := by
          intro q i hi
          rw [List.map_append]
          exact List.mem_append_left _ (hcov i hi)
        have hprojnew : ∀ q : Project, q.id = new_pid →
            q.translated_file_id = none → q.state ≠ ProjectState.CREATED →
            ((q.state = ProjectState.COMPLETED ∨ q.state = ProjectState.APPROVED) → False) →
            ∀ r ∈ s.projects ++ [q], ProjInv sub r := by
          intro q hqid hqfile hqstate hqcompl r hr
          rcases List.mem_append.mp hr with hr | hr
          · exact hproj r hr
          · rw [List.mem_singleton.mp hr]
            refine ⟨?_, ?_, hqstate⟩
            · rw [hqfile, hqid, hsubnew]
              simp
            · intro hst
              exact (hqcompl hst).elim
        rcases assign_or_close_cases
            (s.projects ++ [mkCreatedProject customer language_code new_pid file_id now])
            caps new_pid
            (mkCreatedProject customer language_code new_pid file_id now).language_code
          with ⟨t, hA⟩ | hA
        · have hval : (ProjectAssignmentService.assign_or_close
              (s.projects ++ [mkCreatedProject customer language_code new_pid file_id now])
              caps new_pid
              (mkCreatedProject customer language_code new_pid file_id now).language_code).1
              = s.projects ++
                [{ mkCreatedProject customer language_code new_pid file_id now with
                   translator_id := some t, state := ProjectState.ASSIGNED }] := by
            rw [hA]
            show (updateFirst _ _ _).1 = _
            rw [updateFirst_append_match hl1false (by simp [mkCreatedProject])]
          rw [hval]
          refine ⟨hnodup2 _ rfl, hcov2 _, hprojnew _ rfl rfl
            (fun h => ProjectState.noConfusion h) ?_⟩
          intro hst
          rcases hst with h | h <;> exact ProjectState.noConfusion h
        · have hval : (ProjectAssignmentService.assign_or_close
              (s.projects ++ [mkCreatedProject customer language_code new_pid file_id now])
              caps new_pid
              (mkCreatedProject customer language_code new_pid file_id now).language_code).1
              = s.projects ++
                [{ mkCreatedProject customer language_code new_pid file_id now with
                   state := ProjectState.CLOSED }] := by
            rw [hA]
            show (updateFirst _ _ _).1 = _
            rw [updateFirst_append_match hl1false (by simp [mkCreatedProject])]
          rw [hval]
          refine ⟨hnodup2 _ rfl, hcov2 _, hprojnew _ rfl rfl
            (fun h => ProjectState.noConfusion h) ?_⟩
          intro hst
          rcases hst with h | h <;> exact ProjectState.noConfusion h
  | submitTranslation caller project_id content_len max_bytes translated_file_id =>
      rcases submitTranslationApi_ok_cases s caller project_id content_len max_bytes
          translated_file_id with ⟨hs', hok⟩ |
          ⟨l1, x, l2, hsplit, hl1, hxid, hxtr, hxst, hs', hok⟩
      · rw [hs']
        apply storeInv_congr ⟨hnd, hcov, hproj⟩
        intro i
        rw [hok]
        simp
      · rw [hs']
        have hmapn : (l1 ++ { x with
                              translated_file_id := some translated_file_id,
                              state := ProjectState.COMPLETED } :: l2).map Project.id
            = s.projects.map Project.id := by
          rw [hsplit]
          simp
        have hndsplit : ((l1 ++ x :: l2).map Project.id).Nodup := by
          rw [← hsplit]
          exact hnd
        have hne : ∀ r, r ∈ l1 ∨ r ∈ l2 → r.id ≠ project_id := by
          intro r hr
          rw [← hxid]
          exact nodup_map_decomp_ne hndsplit r hr
        refine ⟨?_, ?_, ?_⟩
        · show ((l1 ++ { x with
                         translated_file_id := some translated_file_id,
                         state := ProjectState.COMPLETED } :: l2).map Project.id).Nodup
          rw [hmapn]
          exact hnd
        · intro i hi
          show i ∈ (l1 ++ { x with
                            translated_file_id := some translated_file_id,
                            state := ProjectState.COMPLETED } :: l2).map Project.id
          rw [hmapn]
          by_cases hii : i = project_id
          · rw [hii, ← hxid]
            apply List.mem_map_of_mem Project.id
            rw [hsplit]
            exact List.mem_append_right l1 (List.mem_cons_self x l2)
          · apply hcov
            have hi' := hi
            simp only [hok, Bool.and_true] at hi'
            rw [if_neg (by simp [hii])] at hi'
            exact hi'
        · intro r hr
          rcases List.mem_append.mp hr with hr | hr
          · have hrs : r ∈ s.projects := by
              rw [hsplit]
              exact List.mem_append_left (x :: l2) hr
            apply projInv_congr (hproj r hrs)
            have hrne : r.id ≠ project_id := hne r (Or.inl hr)
            simp [hok, hrne]
          · rcases List.mem_cons.mp hr with hr | hr
            · rw [hr]
              refine ⟨?_, ?_, fun h => ProjectState.noConfusion h⟩
              · simp [hok, hxid]
              · intro _
                simp [hok, hxid]
            · have hrs : r ∈ s.projects := by
                rw [hsplit]
                exact List.mem_append_right l1 (List.mem_cons_of_mem x hr)
              apply projInv_congr (hproj r hrs)
              have hrne : r.id ≠ project_id := hne r (Or.inr hr)
              simp [hok, hrne]
  | approve project_id customer_id text fb_id now =>
      obtain ⟨h1, h2, h3⟩ := projInvs_after_review hnd hcov hproj project_id customer_id
        (FeedbackRepository.upsert_for_project s.feedbacks
          { id := fb_id, project_id := project_id, text := text, created_at := now }).2.id
        ProjectState.APPROVED (fun h => ProjectState.noConfusion h)
      exact ⟨h1, h2, h3⟩
  | reject project_id customer_id text fb_id now =>
      by_cases hstrip : pyStrip text = ""
      · have hs' : (ProjectReviewService.reject s project_id customer_id text fb_id now).1
            = s := by
          simp [ProjectReviewService.reject, if_pos hstrip]
        rw [hs']
        exact ⟨hnd, hcov, hproj⟩
      · have hs' : (ProjectReviewService.reject s project_id customer_id text fb_id now).1
            = { projects := (ProjectRepository.set_feedback_and_state_if_customer s.projects
                  project_id customer_id ProjectState.COMPLETED ProjectState.ASSIGNED
                  (FeedbackRepository.upsert_for_project s.feedbacks
                    { id := fb_id, project_id := project_id, text := text,
                      created_at := now }).2.id).1,
                feedbacks := (FeedbackRepository.upsert_for_project s.feedbacks
                  { id := fb_id, project_id := project_id, text := text,
                    created_at := now }).1 } := by
          simp only [ProjectReviewService.reject, if_neg hstrip]
        rw [hs']
        obtain ⟨h1, h2, h3⟩ := projInvs_after_review hnd hcov hproj project_id customer_id
          (FeedbackRepository.upsert_for_project s.feedbacks
            { id := fb_id, project_id := project_id, text := text, created_at := now }).2.id
          ProjectState.ASSIGNED (fun h => ProjectState.noConfusion h)
        exact ⟨h1, h2, h3⟩
  | closeProject caller project_id =>
      by_cases h1 : caller.role = UserRole.ADMINISTRATOR
      · cases h2 : ProjectRepository.get_by_id s.projects project_id with
        | none =>
            have hs' : (adminCloseProjectApi s caller project_id).1 = s := by
              simp [adminCloseProjectApi, h1, h2]
            rw [hs']
            exact ⟨hnd, hcov, hproj⟩
        | some project =>
            have hs' : (adminCloseProjectApi s caller project_id).1
                = { projects := ProjectRepository.close_project s.projects project_id,
                    feedbacks := s.feedbacks } := by
              simp [adminCloseProjectApi, h1, h2]
            rw [hs']
            obtain ⟨g1, g2, g3⟩ := projInvs_after_close hnd hcov hproj project_id
            exact ⟨g1, g2, g3⟩
      · have hs' : (adminCloseProjectApi s caller project_id).1 = s := by
          simp [adminCloseProjectApi, h1]
        rw [hs']
        exact ⟨hnd, hcov, hproj⟩

theorem reach_storeInv {s : Store} {sub : Nat → Bool} (h : Reach s sub) : StoreInv s sub := by
  induction h with
  | init =>
      refine ⟨by simp, ?_, by simp⟩
      intro i hi
      exact absurd hi (by simp)
  | step hr hstep ih => exact storeInv_step hstep ih

theorem reach_congr {s : Store} {sub sub' : Nat → Bool} (h : Reach s sub)
    (he : ∀ i, sub i = sub' i) : Reach s sub' := by
  have hfun : sub = sub' := funext he
  rw [← hfun]
  exact h

/-- C5 (counterexample): the claimed invariant says `translated_file_ref`
is non-null iff the state is COMPLETED or APPROVED, or ASSIGNED after a
reject-with-resubmission cycle.  But the administrative close keeps
`translated_file_id`, so the trace create → submitTranslation → closeProject
reaches a CLOSED project whose `translated_file_id` is set — a state
allowed on no side of the claimed equivalence. -/
theorem c5_counterexample :
    Reach wStoreClosedFile wSubAfter ∧
    wProjClosedFile ∈ wStoreClosedFile.projects ∧
    wProjClosedFile.translated_file_id.isSome = true ∧
    wProjClosedFile.state = ProjectState.CLOSED ∧
    wProjClosedFile.state ≠ ProjectState.COMPLETED ∧
    wProjClosedFile.state ≠ ProjectState.APPROVED ∧
    wProjClosedFile.state ≠ ProjectState.ASSIGNED := by
  refine ⟨?_, by decide, by decide, by decide, by decide, by decide, by decide⟩
  have h0 := Reach.init
  have hstep1 := Step.createProject { projects := [], feedbacks := [] } (fun _ => false)
    wCaps wUsers wCustomer "cs" 0 1 1 "o" 0 true (by simp)
  have h1 := Reach.step h0 hstep1
  have he1 : (ProjectService.create_project { projects := [], feedbacks := [] } wCaps wUsers
      wCustomer "cs" 0 1 1 "o" 0 true).1 = wStoreAssigned := by decide
  rw [he1] at h1
  have hstep2 := Step.submitTranslation wStoreAssigned (fun _ => false) wTranslator 1 0 1 "t"
  have h2 := Reach.step h1 hstep2
  have he2 : (submitTranslationApi wStoreAssigned wTranslator 1 0 1 "t").1
      = wStoreCompleted := by decide
  rw [he2] at h2
  have h2' : Reach wStoreCompleted wSubAfter := by
    apply reach_congr h2
    intro i
    have hok : isOkUnit (submitTranslationApi wStoreAssigned wTranslator 1 0 1 "t").2
        = true := by decide
    by_cases hi : i = 1
    · simp [hok, wSubAfter, hi]
    · simp [hok, wSubAfter, hi]
  have hstep3 := Step.closeProject wStoreCompleted wSubAfter wAdmin 1
  have h3 := Reach.step h2' hstep3
  have he3 : (adminCloseProjectApi wStoreCompleted wAdmin 1).1 = wStoreClosedFile := by decide
  rw [he3] at h3
  exact h3

/-- C5 (amended): for every project reachable by any sequence of core
operations, `translated_file_id` is non-null iff the state is COMPLETED or
APPROVED, or the state is ASSIGNED after a successful submission (a
reject-with-resubmission cycle), or the state is CLOSED for a project that
was closed after a successful submission.  The ghost flag `sub` records,
per project id, whether a translation submission has ever succeeded. -/
theorem c5_translated_file_invariant {s : Store} {sub : Nat → Bool} (h : Reach s sub) :
    ∀ p ∈ s.projects, (p.translated_file_id.isSome = true ↔
      (p.state = ProjectState.COMPLETED ∨ p.state = ProjectState.APPROVED ∨
       (p.state = ProjectState.ASSIGNED ∧ sub p.id = true) ∨
       (p.state = ProjectState.CLOSED ∧ sub p.id = true))) := by
  intro p hp
  obtain ⟨hnd, hcov, hproj⟩ := reach_storeInv h
  obtain ⟨hA, hB, hC⟩ := hproj p hp
  constructor
  · intro hf
    have hsub := hA.mp hf
    cases hstate : p.state with
    | CREATED => exact absurd hstate hC
    | ASSIGNED => exact Or.inr (Or.inr (Or.inl ⟨rfl, hsub⟩))
    | COMPLETED => exact Or.inl rfl
    | APPROVED => exact Or.inr (Or.inl rfl)
    | CLOSED => exact Or.inr (Or.inr (Or.inr ⟨rfl, hsub⟩))
  · intro hr
    apply hA.mpr
    rcases hr with h | h | ⟨_, h⟩ | ⟨_, h⟩
    · exact hB (Or.inl h)
    · exact hB (Or.inr h)
    · exact h
    · exact h

/-- Witness for C5 (amended) on a concrete reachable store: right after a
successful create-and-assign, the project is ASSIGNED with no submission,
and its `translated_file_id` is null, as the equivalence requires. -/
theorem c5_translated_file_invariant_witness :
    wProjAssigned ∈ wStoreAssigned.projects ∧
    (wProjAssigned.translated_file_id.isSome = true ↔
      (wProjAssigned.state = ProjectState.COMPLETED ∨
       wProjAssigned.state = ProjectState.APPROVED ∨
       (wProjAssigned.state = ProjectState.ASSIGNED ∧
         (fun _ : Nat => false) wProjAssigned.id = true) ∨
       (wProjAssigned.state = ProjectState.CLOSED ∧
         (fun _ : Nat => false) wProjAssigned.id = true))) := by
  have h0 := Reach.init
  have hstep1 := Step.createProject { projects := [], feedbacks := [] } (fun _ => false)
    wCaps wUsers wCustomer "cs" 0 1 1 "o" 0 true (by simp)
  have h1 := Reach.step h0 hstep1
  have he1 : (ProjectService.create_project { projects := [], feedbacks := [] } wCaps wUsers
      wCustomer "cs" 0 1 1 "o" 0 true).1 = wStoreAssigned := by decide
  rw [he1] at h1
  exact ⟨by decide, c5_translated_file_invariant h1 wProjAssigned (by decide)⟩

/-! ### C9 — the feedback upsert round-trip -/

theorem feedback_ext_fields {a b : Feedback} (h1 : a.id = b.id)
    (h2 : a.project_id = b.project_id) (h3 : a.text = b.text)
    (h4 : a.created_at = b.created_at) : a = b := by
  cases a
  cases b
  simp_all

theorem upsert_for_project_unique (col : List Feedback) (fb : Feedback)
    (huniq : (col.filter (fun f => f.project_id == fb.project_id)).length ≤ 1) :
    ∃ (l1 l2 : List Feedback),
      (∀ z ∈ l1, (z.project_id == fb.project_id) = false) ∧
      (∀ z ∈ l2, (z.project_id == fb.project_id) = false) ∧
      (FeedbackRepository.upsert_for_project col fb).1
        = l1 ++ (FeedbackRepository.upsert_for_project col fb).2 :: l2 ∧
      (FeedbackRepository.upsert_for_project col fb).2.project_id = fb.project_id ∧
      (FeedbackRepository.upsert_for_project col fb).2.text = fb.text ∧
      (FeedbackRepository.upsert_for_project col fb).2.created_at = fb.created_at ∧
      ((FeedbackRepository.get_by_project_id col fb.project_id = none ∧
        (FeedbackRepository.upsert_for_project col fb).2.id = fb.id) ∨
       (∃ existing, FeedbackRepository.get_by_project_id col fb.project_id = some existing ∧
        (FeedbackRepository.upsert_for_project col fb).2.id = existing.id)) := by
  unfold FeedbackRepository.upsert_for_project
  cases hfind : FeedbackRepository.get_by_project_id col fb.project_id with
  | none =>
      have hall : ∀ z ∈ col, (z.project_id == fb.project_id) = false := by
        intro z hz
        have := List.find?_eq_none.mp hfind z hz
        cases hb : (z.project_id == fb.project_id) with
        | false => rfl
        | true => exact absurd hb this
      have hflag : (updateFirst (fun f => f.project_id == fb.project_id)
          (fun _ => fb) col) = (col, false) := updateFirst_of_all_false hall
      simp only [hfind, hflag, Bool.false_eq_true, if_false]
      exact ⟨col, [], hall, by simp, by trivial, by trivial, by trivial, by trivial,
        Or.inl ⟨by trivial, by trivial⟩⟩
  | some existing =>
      have hget' : col.find? (fun f => f.project_id == fb.project_id) = some existing := hfind
      obtain ⟨t1, t2, hsplit, ht1, hx⟩ := find?_decomp hget'
      have ht2 : ∀ z ∈ t2, (z.project_id == fb.project_id) = false := by
        intro z hz
        cases hb : (z.project_id == fb.project_id) with
        | false => rfl
        | true =>
            exfalso
            have hfl : col.filter (fun f => f.project_id == fb.project_id)
                = t1.filter (fun f => f.project_id == fb.project_id) ++ existing ::
                  t2.filter (fun f => f.project_id == fb.project_id) := by
              rw [hsplit, List.filter_append, List.filter_cons, if_pos hx]
            have ht1nil : t1.filter (fun f => f.project_id == fb.project_id) = [] := by
              rw [List.filter_eq_nil_iff]
              intro a ha hpa
              rw [ht1 a ha] at hpa
              exact Bool.noConfusion hpa
            have hzmem : z ∈ t2.filter (fun f => f.project_id == fb.project_id) :=
              List.mem_filter.mpr ⟨hz, hb⟩
            rw [hfl, ht1nil, List.nil_append] at huniq
            have : 2 ≤ (existing :: t2.filter
                (fun f => f.project_id == fb.project_id)).length := by
              have hpos : 0 < (t2.filter (fun f => f.project_id == fb.project_id)).length :=
                List.length_pos_of_mem hzmem
              simp only [List.length_cons]
              exact Nat.succ_le_succ hpos
            exact absurd (Nat.le_trans this huniq) (by decide)
      have hmatch : (updateFirst (fun f => f.project_id == fb.project_id)
          (fun _ => { fb with id := existing.id }) col)
          = (t1 ++ { fb with id := existing.id } :: t2, true) := by
        rw [hsplit]
        exact updateFirst_append_match ht1 hx
      simp only [hfind, hmatch, if_true]
      exact ⟨t1, t2, ht1, ht2, by trivial, by trivial, by trivial, by trivial,
        Or.inr ⟨existing, by trivial, by trivial⟩⟩

/-- C9: upserting a Feedback a second (or any subsequent) time for the same
`project_id` preserves the Feedback id assigned by the first upsert and
overwrites only `text` and `created_at`; the collection never gains a
second row for that `project_id` (assuming the unique index on
`project_id`, i.e. at most one matching row initially). -/
theorem c9_feedback_upsert_roundtrip (col : List Feedback) (fb1 fb2 : Feedback)
    (hpid : fb1.project_id = fb2.project_id)
    (huniq : (col.filter (fun f => f.project_id == fb1.project_id)).length ≤ 1) :
    ((FeedbackRepository.upsert_for_project
        (FeedbackRepository.upsert_for_project col fb1).1 fb2).2.id
      = (FeedbackRepository.upsert_for_project col fb1).2.id) ∧
    ((FeedbackRepository.upsert_for_project
        (FeedbackRepository.upsert_for_project col fb1).1 fb2).1.filter
        (fun f => f.project_id == fb1.project_id)
      = [{ (FeedbackRepository.upsert_for_project col fb1).2 with
           text := fb2.text, created_at := fb2.created_at }]) := by
  obtain ⟨l1, l2, hl1, hl2, hdecomp, hpidr, htext, hcreated, _⟩ :=
    upsert_for_project_unique col fb1 huniq
  have hget2 : FeedbackRepository.get_by_project_id
      (FeedbackRepository.upsert_for_project col fb1).1 fb2.project_id
      = some (FeedbackRepository.upsert_for_project col fb1).2 := by
    show List.find? _ _ = _
    rw [hdecomp]
    apply find?_append_match
    · intro z hz
      rw [← hpid]
      exact hl1 z hz
    · rw [hpidr, hpid]
      simp
  have huniq2 : ((FeedbackRepository.upsert_for_project col fb1).1.filter
      (fun f => f.project_id == fb2.project_id)).length ≤ 1 := by
    have hfl : (FeedbackRepository.upsert_for_project col fb1).1.filter
        (fun f => f.project_id == fb2.project_id)
        = [(FeedbackRepository.upsert_for_project col fb1).2] := by
      rw [hdecomp, List.filter_append, List.filter_cons, if_pos (by rw [hpidr, hpid]; simp)]
      rw [List.filter_eq_nil_iff.mpr ?hl1nil, List.filter_eq_nil_iff.mpr ?hl2nil]
      · rfl
      case hl1nil =>
        intro a ha hpa
        rw [← hpid, hl1 a ha] at hpa
        exact Bool.noConfusion hpa
      case hl2nil =>
        intro a ha hpa
        rw [← hpid, hl2 a ha] at hpa
        exact Bool.noConfusion hpa
    rw [hfl]
    simp
  obtain ⟨m1, m2, hm1, hm2, hdecomp2, hpidr2, htext2, hcreated2, hid2⟩ :=
    upsert_for_project_unique (FeedbackRepository.upsert_for_project col fb1).1 fb2 huniq2
  have hidfinal : (FeedbackRepository.upsert_for_project
      (FeedbackRepository.upsert_for_project col fb1).1 fb2).2.id
      = (FeedbackRepository.upsert_for_project col fb1).2.id := by
    rcases hid2 with ⟨hnone, _⟩ | ⟨existing, hsome, hidd⟩
    · rw [hget2] at hnone
      exact Option.noConfusion hnone
    · rw [hget2] at hsome
      rw [hidd, Option.some.inj hsome]
  refine ⟨hidfinal, ?_⟩
  have hfl2 : (FeedbackRepository.upsert_for_project
      (FeedbackRepository.upsert_for_project col fb1).1 fb2).1.filter
      (fun f => f.project_id == fb1.project_id)
      = [(FeedbackRepository.upsert_for_project
          (FeedbackRepository.upsert_for_project col fb1).1 fb2).2] := by
    rw [hdecomp2, List.filter_append, List.filter_cons,
      if_pos (by rw [hpidr2, ← hpid]; simp)]
    rw [List.filter_eq_nil_iff.mpr ?hm1nil, List.filter_eq_nil_iff.mpr ?hm2nil]
    · rfl
    case hm1nil =>
      intro a ha hpa
      rw [hpid, hm1 a ha] at hpa
      exact Bool.noConfusion hpa
    case hm2nil =>
      intro a ha hpa
      rw [hpid, hm2 a ha] at hpa
      exact Bool.noConfusion hpa
  rw [hfl2]
  congr 1
  apply feedback_ext_fields
  · exact hidfinal
  · rw [hpidr2, hpidr, hpid]
  · exact htext2
  · exact hcreated2

/-- Witness for C9 on a concrete run: upserting feedback for project 1
twice (ids 7 then 8) keeps id 7 and overwrites only text and timestamp. -/
theorem c9_feedback_upsert_roundtrip_witness :
    ((3 : Nat) = 3 ∧
     ([] : List Feedback).filter (fun f => f.project_id == (1 : Nat)) = []) ∧
    ((FeedbackRepository.upsert_for_project
        (FeedbackRepository.upsert_for_project []
          { id := 7, project_id := 1, text := "ok", created_at := 9 }).1
        { id := 8, project_id := 1, text := "later", created_at := 11 }).2.id
      = (FeedbackRepository.upsert_for_project []
          { id := 7, project_id := 1, text := "ok", created_at := 9 }).2.id) :=
  ⟨⟨rfl, by decide⟩,
   (c9_feedback_upsert_roundtrip []
     { id := 7, project_id := 1, text := "ok", created_at := 9 }
     { id := 8, project_id := 1, text := "later", created_at := 11 }
     (by decide) (by decide)).1⟩

end PIAE
